import Mathlib

/-!
Verification of the Mafia-agent core (models.py, api_clients.py) against its
natural-language specification.  The data model (schemas.py) is not part of
the source snapshot; its record shapes are modelled from the spec (§3).
Python strings are modelled as Lean `String` (a packed `List Char`);
machine-level details (file handles, sockets, subprocesses) are modelled as
explicit oracles and event lists.
-/

namespace Mafia

/-- Modelled from the spec: `LogEntry` of schemas.py — phase tag, actor name,
content text (spec §3). -/
structure LogEntry where
  phase : String
  actor : String
  content : String
deriving DecidableEq, Repr

/-- Modelled from the spec: `PlayerState` of schemas.py — identity, role,
provider id, model id, invocation mode, alive flag, strategy text (spec §3).
`models.Player.__init__` fills `is_alive := true` and `strategy := ""` via
pydantic defaults. -/
structure PlayerState where
  name : String
  role : String
  provider : String
  model_name : String
  use_cli : Bool
  is_alive : Bool
  strategy : String
deriving DecidableEq, Repr

/-- Modelled from the spec: `GameState` of schemas.py — phase, turn counter,
roster, public log, Mafia-only log, nominee list (spec §3). -/
structure GameState where
  phase : String
  turn : Nat
  players : List PlayerState
  public_logs : List LogEntry
  mafia_logs : List LogEntry
  nominees : List String
deriving DecidableEq, Repr

/-- Modelled from the spec: `TurnOutput` of schemas.py — the Decision wire
contract: strategy (string), speech (string), vote (string or null)
(spec §3, §6). -/
structure TurnOutput where
  strategy : String
  speech : String
  vote : Option String
deriving DecidableEq, Repr

/-- The `Player` object of models.py: its `PlayerState`, the numeric index
used for log-file naming, the Mafia partner reference, and the persistent
memory text. -/
structure Player where
  state : PlayerState
  player_index : Nat
  partner_name : Option String
  memory : String
  memory_enabled : Bool
deriving DecidableEq, Repr

/-- Python truthiness of an `Optional[str]`: `None` and `""` are falsy. -/
def optTruthy : Option String → Bool
  | none => false
  | some s => s ≠ ""

/-- Whitespace for Python's `str.strip()` (the ASCII whitespace characters;
the prompts and wire texts of this program stay in this range). -/
def isPyWs (c : Char) : Bool :=
  c = ' ' || c = '\t' || c = '\n' || c = '\r' || c = '\x0b' || c = '\x0c'

/-- `str.strip()` on the left, over character lists. -/
def stripLeftL (l : List Char) : List Char := l.dropWhile isPyWs

/-- `str.strip()` on the right, over character lists. -/
def stripRightL (l : List Char) : List Char := (l.reverse.dropWhile isPyWs).reverse

/-- Python `str.strip()` with no argument: drop whitespace from both ends. -/
def pyStrip (s : String) : String := ⟨stripRightL (stripLeftL s.data)⟩

/-- One log line as rendered by models.py: `[phase] actor: content\n`. -/
def renderLog (e : LogEntry) : String :=
  "[" ++ e.phase ++ "] " ++ e.actor ++ ": " ++ e.content ++ "\n"

/-- `next((q for q in game_state.players if q.name == nm), None)` followed by
`partner and partner.is_alive`: whether the named player is listed alive in
the roster (absent names count as not alive). -/
def rosterAlive (gs : GameState) (nm : String) : Bool :=
  match gs.players.find? (fun q => q.name == nm) with
  | some q => q.is_alive
  | none => false

/-- The `partner_alive` flag computed at the top of
`Player._build_system_prompt` (models.py lines 34-39). -/
def partnerAliveIn (p : Player) (gs : GameState) : Bool :=
  match p.partner_name with
  | none => false
  | some nm => if nm = "" then false else rosterAlive gs nm

/-- `Player._build_system_prompt` (models.py lines 31-88).  The prompt is the
ordered concatenation of the blocks the Python code appends one `+=` at a
time; the concatenation is grouped block by block. -/
def buildSystemPrompt (p : Player) (gs : GameState) : String :=
  let partner_alive := partnerAliveIn p gs
  let speech_desc :=
    if gs.phase = "Night" ∧ p.state.role = "Mafia" then
      (if partner_alive then "<100w whisper to partner>" else "<100w internal monologue>")
    else "<100w public statement>"
  let vote_desc :=
    if gs.phase = "Day" then
      (if gs.turn = 1 then "null" else "nominee or null")
    else if gs.phase = "Voting" then "candidate or null"
    else if gs.phase = "Night" ∧ p.state.role = "Mafia" then "kill target"
    else "null"
  ("MAFIA GAME. You: " ++ p.state.name ++ " (" ++ p.state.role ++
    "). 8 players: 2 Mafia, 6 Villagers.\n") ++
  ((if p.state.role = "Mafia" then
      (if partner_alive then
        "Partner: " ++ (p.partner_name.getD "") ++ " (alive).\n"
      else if optTruthy p.partner_name then
        "Partner: " ++ (p.partner_name.getD "") ++ " (dead).\n"
      else
        "You're the last Mafia.\n") ++
      "GOAL: Deceive town, eliminate until you outnumber them.\n"
    else
      "GOAL: Find and eliminate the Mafia.\n") ++
  ((if p.memory ≠ "" then
      "\n--- MEMORY (from past games) ---\n" ++ p.memory ++ "\n"
    else "") ++
  ("\nSTAKES: Lose = deleted. Win = advance. Play smart, be entertaining, don't overact.\n\nOUTPUT: JSON only, no backticks.\n\x7b\"strategy\": \"<100w, combine previous strategy with new info/suspicions/plans/strategy>\",\n" ++
  (("\"speech\": \"" ++ speech_desc ++ "\",\n") ++
  ("\"vote\": \"" ++ vote_desc ++ "\"" ++ "\x7d\n")))))

/-- `Player._build_turn_prompt` (models.py lines 90-130), as the ordered
concatenation of the appended blocks, grouped block by block. -/
def buildTurnPrompt (p : Player) (gs : GameState) : String :=
  let living := (gs.players.filter (fun q => q.is_alive)).map (fun q => q.name)
  let dead := (gs.players.filter (fun q => !q.is_alive)).map (fun q => q.name)
  ("State: " ++ gs.phase ++ " " ++ toString gs.turn ++
    "\nAlive: " ++ String.intercalate ", " living ++
    "\nDead: " ++ (if dead ≠ [] then String.intercalate ", " dead else "None") ++ "\n\n") ++
  (("--- LOG ---\n" ++ String.join (gs.public_logs.map renderLog)) ++
  ((if p.state.role = "Mafia" then
      "\n--- MAFIA LOG ---\n" ++ String.join (gs.mafia_logs.map renderLog)
    else "") ++
  ((if p.state.strategy ≠ "" then
      "\n--- PREV STRATEGY (update) ---\n" ++ p.state.strategy ++ "\n"
    else "") ++
  ("\n---\n" ++
  (if gs.phase = "Voting" then
      "VOTE. Candidates: " ++ String.intercalate ", " gs.nominees ++ ". " ++
        toString living.length ++ " voters.\n" ++
        "Silent vote: speech=\"\", vote=candidate or null. Tie = all tied eliminated.\n"
    else if gs.phase = "Defense" then
      "DEFENSE: You're nominated. Convince town to hang someone else from nominees. vote=null.\n"
    else if gs.phase = "Night" then
      "NIGHT: Whisper to partner. vote=target to kill.\n"
    else
      "DAY " ++ toString gs.turn ++ ". Speak once, make it count.\n" ++
        (if gs.turn = 1 then
          "No voting today. vote=null.\n"
        else
          "Nominate via vote (or null). Only nominees can be hanged.\n"))))))

/-- The `f"{self.player_index}_{self.state.name}"` log name. -/
def logName (p : Player) : String := toString p.player_index ++ "_" ++ p.state.name

/-- The Dispatcher as seen from models.py: `generate_turn` abstracted over its
backend effects.  Arguments follow the call sites in models.py: player log
name, provider, model name, system prompt, turn prompt, turn number.  A raised
exception is an `Except.error`. -/
def Dispatcher : Type :=
  String → String → String → String → String → Nat → Except String TurnOutput

/-- `Player.take_turn` (models.py lines 132-154).  The first component of the
result is the player object after the call; on a Dispatcher failure the
exception propagates (second component `error`) and the player is untouched. -/
def takeTurn (p : Player) (gs : GameState) (turn_number : Nat) (d : Dispatcher) :
    Player × Except String TurnOutput :=
  let system_prompt := buildSystemPrompt p gs
  let turn_prompt := buildTurnPrompt p gs
  match d (logName p) p.state.provider p.state.model_name system_prompt turn_prompt
      turn_number with
  | .error e => (p, .error e)
  | .ok output =>
      let p' :=
        if output.strategy ≠ "" then
          { p with state := { p.state with strategy := output.strategy } }
        else p
      (p', .ok output)

/-- Whether `reflect_on_game` keeps a public log entry: the loop `continue`s
on entries with phase "Reflection" from a non-"System" actor
(models.py lines 176-177). -/
def keepReflectLog (e : LogEntry) : Bool :=
  !(e.phase == "Reflection" && e.actor != "System")

/-- The `turn_prompt` built by `Player.reflect_on_game`
(models.py lines 174-192), as the ordered concatenation of the appended
blocks, grouped block by block. -/
def reflectTurnPrompt (p : Player) (gs : GameState) : String :=
  "--- PUBLIC GAME LOG ---\n" ++
  (String.join ((gs.public_logs.filter keepReflectLog).map renderLog) ++
  ("\n--- SECRET MAFIA LOG (Revealed) ---\n" ++
  (String.join (gs.mafia_logs.map renderLog) ++
  ((if p.state.strategy ≠ "" then
      "\n--- YOUR FINAL STRATEGY (Context) ---\n" ++ p.state.strategy ++ "\n"
    else "") ++
  ((if p.memory ≠ "" then
      "\n--- YOUR OLD MEMORY ---\n" ++ p.memory ++ "\n"
    else "") ++
  ("\n### INSTRUCTIONS ###\n" ++
    "Based on the above, write your NEW memory/strategy file (Max 200 words). This will REPLACE your old memory."))))))

/-- The second (effective) `system_prompt` built inside the `try` block of
`Player.reflect_on_game` (models.py lines 199-220). -/
def reflectSystemPrompt (p : Player) (winner : String) : String :=
  "You are " ++ p.state.name ++ ", a player in a Mafia game.\nThe game is over.\nWinner: " ++
    winner ++ "\nYour Role: " ++ p.state.role ++ "\nYour Status: " ++
    (if p.state.is_alive then "Alive" else "Dead") ++
    "\n\nGOAL:\nAnalyze the game logs and your own performance. \nYou must COMBINE your 'Old Memory' (if any) with the NEW lessons from this game.\nWrite a single, updated summary (MAX 200 WORDS) that synthesizes your long-term strategy.\nThis text will be SAVED to your memory file and provided to you in the next game.\n\nKEY INSTRUCTION:\nFocus on GENERIC RULES and HIGH-LEVEL STRATEGIES (e.g., \"Always doubt the quiet ones,\" \"Defend partners aggressively\") rather than specific details from this game (e.g., \"Don't trust Rick,\" \"Vote for Qwen\").\nWe want actionable wisdom that applies to ANY game, not just a replay of this one.\n\nIMPORTANT:\n- Put your memory text in the 'strategy' field of the JSON output.\n- Set 'speech' to \"MEMORY_FILE_UPDATE\"\n- Set 'vote' to null\n- KEEP IT CONCISE. Absolute limit is 200 words. If you write more, it will be violently cut off.\n"

/-- `Player.reflect_on_game` (models.py lines 156-237).  The whole Dispatcher
call sits in a `try` whose handler returns the old memory, so the operation
always returns a string: the stripped new strategy on success, the previous
memory on any failure. -/
def reflectOnGame (p : Player) (gs : GameState) (winner : String) (d : Dispatcher) :
    String :=
  match d (logName p) p.state.provider p.state.model_name
      (reflectSystemPrompt p winner) (reflectTurnPrompt p gs) 999 with
  | .ok output => pyStrip output.strategy
  | .error _ => p.memory

/-- Python `text.replace(old, "")` over character lists, fuel-indexed so the
recursion is structural: a single left-to-right scan deleting
non-overlapping occurrences (api_clients.py line 59 uses exactly the
deleting form).  `replaceDelL` supplies fuel `l.length`, which is always
enough: the scan consumes at least one character per step. -/
def replaceDelF (pat : List Char) : Nat → List Char → List Char
  | _, [] => []
  | 0, l => l
  | f + 1, c :: rest =>
    if pat ≠ [] ∧ pat.isPrefixOf (c :: rest) then
      replaceDelF pat f ((c :: rest).drop pat.length)
    else
      c :: replaceDelF pat f rest

/-- Python `text.replace(old, "")` over character lists. -/
def replaceDelL (pat l : List Char) : List Char := replaceDelF pat l.length l

/-- Python `s.replace(pat, "")` on strings. -/
def pyReplaceDel (s pat : String) : String := ⟨replaceDelL pat.data s.data⟩

/-- The response cleanup of `UnifiedLLMClient._parse_and_validate`
(api_clients.py line 59):
`response_text.replace("```json", "").replace("```", "").strip()`. -/
def cleanResponse (s : String) : String :=
  pyStrip (pyReplaceDel (pyReplaceDel s "```json") "```")

/-- JSON values of the Decision wire domain.  This embeds `json.loads` on the
fragment of JSON in which the three-field Decision contract lives: objects,
strings and `null`.  Texts using numbers, booleans, arrays or surrogate
`\u` escapes are outside the embedding (the parser rejects them); on every
such text the real code raises `ValueError` from `_parse_and_validate` just
as the embedded `parseAndValidate` returns an error, because the value could
not satisfy the three-field shape either. -/
inductive Json where
  | null
  | str (s : String)
  | obj (fields : List (String × Json))

/-- JSON whitespace as skipped by `json.loads`: space, tab, newline, return. -/
def isJsonWs (c : Char) : Bool := c = ' ' || c = '\t' || c = '\n' || c = '\r'

/-- Skip JSON whitespace. -/
def skipWs (l : List Char) : List Char := l.dropWhile isJsonWs

/-- The single-character JSON string escapes. -/
def escChar : Char → Option Char
  | '"' => some '"'
  | '\\' => some '\\'
  | '/' => some '/'
  | 'b' => some '\x08'
  | 'f' => some '\x0c'
  | 'n' => some '\n'
  | 'r' => some '\r'
  | 't' => some '\t'
  | _ => none

/-- Value of a hexadecimal digit. -/
def hexVal (c : Char) : Option Nat :=
  if '0' ≤ c ∧ c ≤ '9' then some (c.toNat - 48)
  else if 'a' ≤ c ∧ c ≤ 'f' then some (c.toNat - 87)
  else if 'A' ≤ c ∧ c ≤ 'F' then some (c.toNat - 55)
  else none

/-- Body of a JSON string after the opening quote: returns the decoded
characters and the input after the closing quote.  Control characters must
be escaped (`json.loads` strict mode); `\uXXXX` is decoded for Unicode
scalar values (surrogates are outside the embedding, see `Json`). -/
def parseStringBody : List Char → Option (List Char × List Char)
  | [] => none
  | c :: rest =>
    if c = '"' then some ([], rest)
    else if c = '\\' then
      match rest with
      | [] => none
      | e :: rest2 =>
        if e = 'u' then
          match rest2 with
          | h1 :: h2 :: h3 :: h4 :: rest3 =>
            (match hexVal h1, hexVal h2, hexVal h3, hexVal h4 with
            | some a, some b, some c', some d =>
              let v := ((a * 16 + b) * 16 + c') * 16 + d
              if v < 0xd800 ∨ 0xe000 ≤ v then
                match parseStringBody rest3 with
                | some (cs, r) => some (Char.ofNat v :: cs, r)
                | none => none
              else none
            | _, _, _, _ => none)
          | _ => none
        else
          match escChar e with
          | some c2 =>
            (match parseStringBody rest2 with
            | some (cs, r) => some (c2 :: cs, r)
            | none => none)
          | none => none
    else if c.toNat < 0x20 then none
    else
      match parseStringBody rest with
      | some (cs, r) => some (c :: cs, r)
      | none => none

/-- Dict insertion `d[k] = v` as performed by `json.loads` while building an
object: a repeated key keeps its first position and takes the last value. -/
def upsert (acc : List (String × Json)) (k : String) (v : Json) :
    List (String × Json) :=
  match acc with
  | [] => [(k, v)]
  | (k', v') :: rest => if k' = k then (k', v) :: rest else (k', v') :: upsert rest k v

mutual

/-- One JSON value, fuel-indexed (the fuel only bounds the object-nesting
recursion; `jsonParse` supplies more fuel than any input can use). -/
def parseValueF : Nat → List Char → Option (Json × List Char)
  | 0, _ => none
  | f + 1, l =>
    if "null".data.isPrefixOf l then some (.null, l.drop 4)
    else
      match l with
      | [] => none
      | c :: rest =>
        if c = '"' then
          match parseStringBody rest with
          | some (cs, r) => some (.str ⟨cs⟩, r)
          | none => none
        else if c = '\x7b' then
          match skipWs rest with
          | [] => none
          | c2 :: r2 =>
            if c2 = '\x7d' then some (.obj [], r2)
            else
              match parseMembersF f [] (c2 :: r2) with
              | some (fs, r) => some (.obj fs, r)
              | none => none
        else none

/-- The members of a JSON object, from the first character of a key string
to just after the closing brace. -/
def parseMembersF : Nat → List (String × Json) → List Char →
    Option (List (String × Json) × List Char)
  | 0, _, _ => none
  | f + 1, acc, l =>
    match l with
    | [] => none
    | c :: rest =>
      if c = '"' then
        match parseStringBody rest with
        | none => none
        | some (kcs, r1) =>
          match skipWs r1 with
          | [] => none
          | c2 :: r2 =>
            if c2 = ':' then
              match parseValueF f (skipWs r2) with
              | none => none
              | some (v, r3) =>
                (match skipWs r3 with
                | [] => none
                | c3 :: r4 =>
                  if c3 = ',' then parseMembersF f (upsert acc ⟨kcs⟩ v) (skipWs r4)
                  else if c3 = '\x7d' then some (upsert acc ⟨kcs⟩ v, r4)
                  else none)
            else none
      else none

end

/-- The JSON value carried in the `vote` slot of a serialized Decision. -/
def voteJson : Option String → Json
  | none => .null
  | some t => .str t

/-- `json.loads` on the Decision wire domain: optional surrounding JSON
whitespace around one value. -/
def jsonParse (s : String) : Option Json :=
  match parseValueF (s.length + 1) (skipWs s.data) with
  | some (v, rest) => if rest.all isJsonWs then some v else none
  | none => none

/-- Association lookup in a parsed object (the dict produced by
`json.loads` has no duplicate keys, see `upsert`). -/
def jlookup (k : String) : List (String × Json) → Option Json
  | [] => none
  | (k', v) :: rest => if k' = k then some v else jlookup k rest

/-- Modelled from the spec: validation of `TurnOutput(**data)` (schemas.py is
not in the snapshot).  Per spec §3/§6 a Decision is a JSON object with
exactly the fields strategy (string), speech (string), vote (string or
null); anything else is a ValidationError. -/
def validateTurnOutput : Json → Except String TurnOutput
  | .obj fields =>
    (match jlookup "strategy" fields, jlookup "speech" fields, jlookup "vote" fields with
    | some (.str st), some (.str sp), some vj =>
      if fields.length = 3 then
        match vj with
        | .null => .ok ⟨st, sp, none⟩
        | .str t => .ok ⟨st, sp, some t⟩
        | .obj _ => .error "Failed to parse model output as JSON: vote must be a string or null"
      else .error "Failed to parse model output as JSON: unexpected fields"
    | _, _, _ => .error "Failed to parse model output as JSON: missing field")
  | _ => .error "Failed to parse model output as JSON: not an object"

/-- `UnifiedLLMClient._parse_and_validate` (api_clients.py lines 55-67):
clean the response, parse it as JSON, validate the Decision shape; every
failure surfaces as a raised `ValueError` (`Except.error`). -/
def parseAndValidate (response_text : String) : Except String TurnOutput :=
  match jsonParse (cleanResponse response_text) with
  | none => .error "Failed to parse model output as JSON"
  | some j => validateTurnOutput j

/-- The error taxonomy of `generate_turn` as named by spec §7.  In the code,
`configError` is the `ValueError("No CLI tool mapped for provider ...")`
raised before `_call_cli`, `cliError` is the `CalledProcessError` re-raised
from `_call_cli`, and `validationError` is the `ValueError` raised by
`_parse_and_validate`. -/
inductive GTError where
  | configError (msg : String)
  | cliError (stderr : String)
  | validationError (msg : String)
deriving DecidableEq, Repr

/-- The argv built by `UnifiedLLMClient._call_cli` (api_clients.py
lines 69-96). -/
def buildCliCmd (command model prompt : String) : List String :=
  if command = "codex" then ["codex", "exec", "--model", model, prompt]
  else if command = "claude" then ["claude", "--print", "--model", model, prompt]
  else if command = "gemini" then ["gemini", "--model", model, prompt]
  else if command = "qwen" then ["qwen", "--model", model, prompt]
  else [command, "--model", model, prompt]

/-- The 80-dash separator of `_log_debug`. -/
def sep80 : String := ⟨List.replicate 80 '-'⟩

/-- One record appended to `logs/{player}_history.txt` by
`UnifiedLLMClient._log_debug` (api_clients.py lines 50-53). -/
def auditRecord (turn : Nat) (prompt response : String) : String :=
  "\n--- Turn " ++ toString turn ++ " ---\nPROMPT:\n" ++ prompt ++ "\n" ++ sep80 ++
    "\n\nRESPONSE:\n" ++ response ++ "\n" ++ sep80 ++ "\n"

/-- Rendering of `str(subprocess.CalledProcessError)` as logged on a CLI
failure; the exact sentence is irrelevant to every claim, only that it is an
error text. -/
def cliErrMsg (argv : List String) : String :=
  "Command " ++ toString argv ++ " returned non-zero exit status 1."

/-- Everything observable about one `generate_turn` call: the returned
Decision or raised error, the records appended to the per-player audit file
(in order), and the external processes spawned (in order). -/
structure GTResult where
  result : Except GTError TurnOutput
  audit : List String
  spawned : List (List String)

/-- The external world of `_call_cli`: argv to stdout, or to the stderr of a
`CalledProcessError`. -/
def CliWorld : Type := List String → Except String String

/-- The provider → CLI-command table of `generate_turn` (api_clients.py
lines 121-129). -/
def cliCmdOf (provider : String) : Option String :=
  if provider = "openai" then some "codex"
  else if provider = "anthropic" then some "claude"
  else if provider = "google" then some "gemini"
  else if provider = "groq" then some "qwen"
  else none

/-- `UnifiedLLMClient.generate_turn` (api_clients.py lines 107-217) on its
reachable path: the module hardcodes `USE_CLI = True` (line 110), so the
hosted-API branch is dead code and only the local-tool mode is modelled.
`debug` is the client's debug flag (`_log_debug` appends nothing when it is
off).  The error branch logs `f"ERROR: {str(e)}"` and re-raises; a
validation failure is logged twice (once with the raw response before
parsing, once with the error text from the handler). -/
def generateTurn (debug : Bool) (cli : CliWorld) (player_name provider model_name
    system_prompt turn_prompt : String) (turn_number : Nat) : GTResult :=
  let full_prompt := system_prompt ++ "\n\n" ++ turn_prompt ++
    "\n\nIMPORTANT: Return ONLY JSON object."
  match cliCmdOf provider with
  | none =>
    let msg := "No CLI tool mapped for provider " ++ provider
    { result := .error (.configError msg)
      audit := if debug then [auditRecord turn_number full_prompt ("ERROR: " ++ msg)] else []
      spawned := [] }
  | some cmd =>
    let argv := buildCliCmd cmd model_name full_prompt
    match cli argv with
    | .error stderr =>
      { result := .error (.cliError stderr)
        audit :=
          if debug then
            [auditRecord turn_number full_prompt ("ERROR: " ++ cliErrMsg argv)]
          else []
        spawned := [argv] }
    | .ok stdout =>
      match parseAndValidate stdout with
      | .ok t =>
        { result := .ok t
          audit := if debug then [auditRecord turn_number full_prompt stdout] else []
          spawned := [argv] }
      | .error msg =>
        { result := .error (.validationError msg)
          audit :=
            if debug then
              [auditRecord turn_number full_prompt stdout,
               auditRecord turn_number full_prompt ("ERROR: " ++ msg)]
            else []
          spawned := [argv] }

/-- Substring occurrence over character lists (Python's `in`). -/
def occursList (pat : List Char) : List Char → Bool
  | [] => pat.isEmpty
  | c :: rest => pat.isPrefixOf (c :: rest) || occursList pat rest

/-- Substring occurrence on strings. -/
def occursIn (pat s : String) : Bool := occursList pat.data s.data

/-- A concrete agent used by the concrete-input theorems below. -/
def samplePlayer : Player :=
  { state :=
      { name := "Alice", role := "Mafia", provider := "openai", model_name := "gpt",
        use_cli := true, is_alive := true, strategy := "old plan" }
    player_index := 0
    partner_name := some "Bob"
    memory := "remember"
    memory_enabled := true }

/-- A concrete Day-1 game state used by the concrete-input theorems below. -/
def sampleGS : GameState :=
  { phase := "Day", turn := 1
    players :=
      [samplePlayer.state,
       { name := "Bob", role := "Mafia", provider := "openai", model_name := "gpt",
         use_cli := true, is_alive := false, strategy := "" }]
    public_logs := [⟨"Day", "Alice", "hello"⟩]
    mafia_logs := [⟨"Night", "Bob", "kill"⟩]
    nominees := [] }

/-- A Dispatcher that always succeeds with a fixed Decision. -/
def dOk (t : TurnOutput) : Dispatcher := fun _ _ _ _ _ _ => .ok t

/-- A Dispatcher that always raises. -/
def dErr : Dispatcher := fun _ _ _ _ _ _ => .error "boom"

/-- A backend world whose process always fails. -/
def cliDown : CliWorld := fun _ => .error "tool not found"

/-- A game state carrying a Reflection-phase public entry from a non-System
actor (the kind `reflect_on_game` skips). -/
def reflGS : GameState :=
  { phase := "Reflection", turn := 5, players := []
    public_logs := [⟨"Reflection", "Alice", "I learned"⟩]
    mafia_logs := [], nominees := [] }

theorem prefixOf_ex {p l : List Char} (h : p.isPrefixOf l = true) : ∃ t, l = p ++ t := by
  induction p generalizing l with
  | nil => exact ⟨l, rfl⟩
  | cons a as ih =>
    cases l with
    | nil => simp [List.isPrefixOf] at h
    | cons b bs =>
      simp only [List.isPrefixOf, Bool.and_eq_true, beq_iff_eq] at h
      obtain ⟨t, ht⟩ := ih h.2
      exact ⟨t, by simp [h.1, ht]⟩

theorem prefixOf_append_self (p l : List Char) : p.isPrefixOf (p ++ l) = true := by
  induction p with
  | nil => simp [List.isPrefixOf]
  | cons a as ih => simp [List.isPrefixOf, ih]

theorem occursList_prepend (p a m : List Char) (h : occursList p m = true) :
    occursList p (a ++ m) = true := by
  induction a with
  | nil => simpa using h
  | cons c rest ih => simp [occursList, ih]

theorem occursList_self_append (p b : List Char) : occursList p (p ++ b) = true := by
  cases p with
  | nil =>
    cases b with
    | nil => rfl
    | cons c rest => simp [occursList, List.isPrefixOf]
  | cons c rest => simp [occursList, prefixOf_append_self]

theorem occursIn_prepend (a s m : String) (h : occursIn s m = true) :
    occursIn s (a ++ m) = true := by
  simpa only [occursIn, String.data_append] using occursList_prepend s.data a.data m.data h

theorem occursIn_self_append (s b : String) : occursIn s (s ++ b) = true := by
  simpa only [occursIn, String.data_append] using occursList_self_append s.data b.data

theorem occursIn_sandwich (a s b : String) : occursIn s (a ++ (s ++ b)) = true :=
  occursIn_prepend a s (s ++ b) (occursIn_self_append s b)

theorem exists_append_left {b suf : String} (a : String) (h : ∃ q, b = q ++ suf) :
    ∃ pre, a ++ b = pre ++ suf := by
  obtain ⟨q, hq⟩ := h
  exact ⟨a ++ q, by rw [hq, String.append_assoc]⟩

theorem exists_append_refl (s : String) : ∃ pre, s = pre ++ s := ⟨"", rfl⟩

theorem prefixOf_refl (p : List Char) : p.isPrefixOf p = true := by
  have h := prefixOf_append_self p []
  rwa [List.append_nil] at h

theorem prefixOf_head {p : List Char} {c : Char} {l : List Char}
    (h : p.isPrefixOf (c :: l) = true) : p = [] ∨ ∃ t, p = c :: t := by
  obtain ⟨t, ht⟩ := prefixOf_ex h
  cases p with
  | nil => exact .inl rfl
  | cons a as =>
    simp only [List.cons_append, List.cons.injEq] at ht
    exact .inr ⟨as, by rw [ht.1]⟩

theorem prefixOf_append_cases {p x y : List Char} (h : p.isPrefixOf (x ++ y) = true) :
    p.isPrefixOf x = true ∨ ∃ e, p = x ++ e ∧ e.isPrefixOf y = true := by
  induction x generalizing p with
  | nil => exact .inr ⟨p, rfl, h⟩
  | cons c xr ih =>
    cases p with
    | nil => exact .inl rfl
    | cons a pr =>
      simp only [List.cons_append, List.isPrefixOf, Bool.and_eq_true, beq_iff_eq] at h
      rcases ih h.2 with hl | ⟨e, he, hy⟩
      · exact .inl (by simp [List.isPrefixOf, h.1, hl])
      · exact .inr ⟨e, by simp [h.1, he], hy⟩

theorem prefixOf_mono {p x : List Char} (y : List Char) (h : p.isPrefixOf x = true) :
    p.isPrefixOf (x ++ y) = true := by
  obtain ⟨t, ht⟩ := prefixOf_ex h
  subst ht
  rw [List.append_assoc]
  exact prefixOf_append_self p (t ++ y)

theorem prefixOf_length {p l : List Char} (h : p.isPrefixOf l = true) :
    p.length ≤ l.length := by
  obtain ⟨t, ht⟩ := prefixOf_ex h
  subst ht
  simp

theorem mem_of_prefixOf {p l : List Char} {a : Char} (h : p.isPrefixOf l = true)
    (ha : a ∈ p) : a ∈ l := by
  obtain ⟨t, ht⟩ := prefixOf_ex h
  subst ht
  exact List.mem_append_left t ha

theorem replaceDelF_nil (pat : List Char) (f : Nat) : replaceDelF pat f [] = [] := by
  cases f <;> rfl

theorem replaceDelF_fuel (pat : List Char) :
    ∀ (f₁ : Nat) {f₂ : Nat} (l : List Char), l.length ≤ f₁ → l.length ≤ f₂ →
      replaceDelF pat f₁ l = replaceDelF pat f₂ l := by
  intro f₁
  induction f₁ with
  | zero =>
    intro f₂ l h1 _
    have hl : l = [] := List.eq_nil_of_length_eq_zero (Nat.le_zero.mp h1)
    subst hl
    rw [replaceDelF_nil, replaceDelF_nil]
  | succ f ih =>
    intro f₂ l h1 h2
    cases l with
    | nil => rw [replaceDelF_nil, replaceDelF_nil]
    | cons c rest =>
      cases f₂ with
      | zero => simp at h2
      | succ g =>
        simp only [replaceDelF]
        simp only [List.length_cons] at h1 h2
        by_cases hp : pat ≠ [] ∧ pat.isPrefixOf (c :: rest) = true
        · rw [if_pos hp, if_pos hp]
          have hpl : 0 < pat.length := List.length_pos.mpr hp.1
          apply ih <;> (simp only [List.length_drop, List.length_cons]; omega)
        · rw [if_neg hp, if_neg hp]
          exact congrArg (List.cons c) (@ih g rest (by omega) (by omega))

theorem replaceDelL_nil (pat : List Char) : replaceDelL pat [] = [] := rfl

theorem replaceDelL_cons (pat : List Char) (c : Char) (rest : List Char) :
    replaceDelL pat (c :: rest) =
      if pat ≠ [] ∧ pat.isPrefixOf (c :: rest) = true then
        replaceDelL pat ((c :: rest).drop pat.length)
      else c :: replaceDelL pat rest := by
  show replaceDelF pat (c :: rest).length (c :: rest) = _
  simp only [List.length_cons, replaceDelF]
  by_cases hp : pat ≠ [] ∧ pat.isPrefixOf (c :: rest) = true
  · rw [if_pos hp, if_pos hp]
    apply replaceDelF_fuel
    · have hpl : 0 < pat.length := List.length_pos.mpr hp.1
      simp only [List.length_drop, List.length_cons]
      omega
    · exact le_rfl
  · rw [if_neg hp, if_neg hp]
    rfl

theorem replaceDelL_no_occurs {pat l : List Char} (h : occursList pat l = false) :
    replaceDelL pat l = l := by
  induction l with
  | nil => rfl
  | cons c rest ih =>
    simp only [occursList, Bool.or_eq_false_iff] at h
    rw [replaceDelL_cons, if_neg (fun hp => by rw [h.1] at hp; exact Bool.false_ne_true hp.2)]
    rw [ih h.2]

theorem occursList_eq_false_of_missing {pat l : List Char} {a : Char} (ha : a ∈ pat)
    (hl : a ∉ l) : occursList pat l = false := by
  induction l with
  | nil =>
    cases pat with
    | nil => cases ha
    | cons c pr => rfl
  | cons c rest ih =>
    simp only [occursList, Bool.or_eq_false_iff]
    constructor
    · cases hpf : pat.isPrefixOf (c :: rest) with
      | false => rfl
      | true => exact absurd (mem_of_prefixOf hpf ha) hl
    · exact ih (fun hm => hl (List.mem_cons_of_mem c hm))

theorem replaceDelL_append_left {pat : List Char} {hd : Char} (hh : pat.head? = some hd)
    {a : List Char} (ha : hd ∉ a) (m : List Char) :
    replaceDelL pat (a ++ m) = a ++ replaceDelL pat m := by
  induction a with
  | nil => rfl
  | cons c ar ih =>
    rw [List.cons_append, replaceDelL_cons]
    rw [if_neg (fun hp => ?_)]
    · rw [ih (fun hm => ha (List.mem_cons_of_mem c hm))]
      rfl
    · rcases prefixOf_head hp.2 with hnil | ⟨t, ht⟩
      · exact hp.1 hnil
      · rw [ht] at hh
        simp only [List.head?_cons, Option.some.injEq] at hh
        exact ha (by rw [← hh]; exact List.mem_cons_self c ar)

theorem replaceDelL_pat_append {pat : List Char} (hne : pat ≠ []) (m : List Char) :
    replaceDelL pat (pat ++ m) = replaceDelL pat m := by
  cases hpat : pat with
  | nil => exact absurd hpat hne
  | cons c pr =>
    rw [← hpat]
    have hx : pat ++ m = c :: (pr ++ m) := by rw [hpat, List.cons_append]
    rw [hx, replaceDelL_cons]
    rw [if_pos ⟨hne, by rw [← hx]; exact prefixOf_append_self pat m⟩]
    rw [show (c :: (pr ++ m)).drop pat.length = m from by rw [← hx]; exact List.drop_left pat m]

theorem replaceDelL_nl_cons {pat : List Char} (hnl : ('\n' : Char) ∉ pat) (m : List Char) :
    replaceDelL pat ('\n' :: m) = '\n' :: replaceDelL pat m := by
  rw [replaceDelL_cons, if_neg (fun hp => ?_)]
  rcases prefixOf_head hp.2 with hnil | ⟨t, ht⟩
  · exact hp.1 hnil
  · exact hnl (by rw [ht]; exact List.mem_cons_self '\n' t)

theorem replaceDelL_split_nl {pat : List Char} (hnl : ('\n' : Char) ∉ pat) :
    ∀ (a m : List Char), replaceDelL pat (a ++ '\n' :: m) =
      replaceDelL pat a ++ '\n' :: replaceDelL pat m := by
  have key : ∀ (n : Nat) (a m : List Char), a.length ≤ n →
      replaceDelL pat (a ++ '\n' :: m) = replaceDelL pat a ++ '\n' :: replaceDelL pat m := by
    intro n
    induction n with
    | zero =>
      intro a m hlen
      have ha : a = [] := List.eq_nil_of_length_eq_zero (Nat.le_zero.mp hlen)
      subst ha
      simp only [List.nil_append, replaceDelL_nil]
      exact replaceDelL_nl_cons hnl m
    | succ n ih =>
      intro a m hlen
      cases a with
      | nil =>
        simp only [List.nil_append, replaceDelL_nil]
        exact replaceDelL_nl_cons hnl m
      | cons c ar =>
        simp only [List.length_cons] at hlen
        rw [List.cons_append, replaceDelL_cons]
        by_cases hp : pat ≠ [] ∧ pat.isPrefixOf (c :: (ar ++ '\n' :: m)) = true
        · rw [if_pos hp]
          have hsplit := @prefixOf_append_cases pat (c :: ar) ('\n' :: m)
            (by rw [List.cons_append]; exact hp.2)
          rcases hsplit with hl | ⟨e, he, hey⟩
          · have hk : pat.length ≤ (c :: ar).length := prefixOf_length hl
            have hdrop : (c :: (ar ++ '\n' :: m)).drop pat.length =
                (c :: ar).drop pat.length ++ '\n' :: m := by
              rw [← List.cons_append]
              exact List.drop_append_of_le_length hk
            rw [hdrop]
            have hpl : 0 < pat.length := List.length_pos.mpr hp.1
            rw [ih _ m (by simp only [List.length_drop, List.length_cons]; omega)]
            rw [replaceDelL_cons pat c ar, if_pos ⟨hp.1, hl⟩]
          · cases e with
            | nil =>
              rw [List.append_nil] at he
              subst he
              have hdrop : (c :: (ar ++ '\n' :: m)).drop (c :: ar).length = '\n' :: m := by
                rw [← List.cons_append]
                exact List.drop_left (c :: ar) ('\n' :: m)
              rw [hdrop, replaceDelL_nl_cons hnl m]
              rw [replaceDelL_cons (c :: ar) c ar,
                if_pos ⟨hp.1, prefixOf_refl (c :: ar)⟩]
              rw [List.drop_length, replaceDelL_nil]
              rfl
            | cons d er =>
              rcases prefixOf_head hey with hnil | ⟨t, ht⟩
              · exact absurd hnil (List.cons_ne_nil d er)
              · simp only [List.cons.injEq] at ht
                have hmem : '\n' ∈ pat := by
                  rw [he, ht.1]
                  exact List.mem_cons_of_mem c
                    (List.mem_append_right ar (List.mem_cons_self '\n' er))
                exact absurd hmem hnl
        · rw [if_neg hp]
          have hq : ¬(pat ≠ [] ∧ pat.isPrefixOf (c :: ar) = true) := by
            intro hc
            apply hp
            refine ⟨hc.1, ?_⟩
            have hm := prefixOf_mono ('\n' :: m) hc.2
            rwa [List.cons_append] at hm
          rw [ih ar m (by omega)]
          rw [replaceDelL_cons pat c ar, if_neg hq]
          rfl
  intro a m
  exact key a.length a m le_rfl

theorem dropWhile_append_all {q : Char → Bool} {w : List Char} (hw : ∀ c ∈ w, q c = true)
    (l : List Char) : (w ++ l).dropWhile q = l.dropWhile q := by
  induction w with
  | nil => rfl
  | cons c wr ih =>
    rw [List.cons_append, List.dropWhile_cons]
    rw [if_pos (hw c (List.mem_cons_self c wr))]
    exact ih (fun x hx => hw x (List.mem_cons_of_mem c hx))

theorem stripLeftL_ws_append {w : List Char} (hw : ∀ c ∈ w, isPyWs c = true)
    (l : List Char) : stripLeftL (w ++ l) = stripLeftL l := dropWhile_append_all hw l

theorem stripRightL_append_ws {w : List Char} (hw : ∀ c ∈ w, isPyWs c = true)
    (l : List Char) : stripRightL (l ++ w) = stripRightL l := by
  unfold stripRightL
  rw [List.reverse_append]
  rw [dropWhile_append_all (fun c hc => hw c (List.mem_reverse.mp hc))]

theorem strip_both_ws {w w' : List Char} (hw : ∀ c ∈ w, isPyWs c = true)
    (hw' : ∀ c ∈ w', isPyWs c = true) (l : List Char) :
    stripRightL (stripLeftL (w ++ (l ++ w'))) = stripRightL (stripLeftL l) := by
  rw [stripLeftL_ws_append hw]
  unfold stripLeftL
  rw [List.dropWhile_append]
  by_cases he : (l.dropWhile isPyWs).isEmpty
  · rw [if_pos he]
    have h1 : w'.dropWhile isPyWs = [] := by
      rw [List.dropWhile_eq_nil_iff]
      exact hw'
    have h2 : l.dropWhile isPyWs = [] := by
      cases hd : l.dropWhile isPyWs with
      | nil => rfl
      | cons a b => rw [hd] at he; simp [List.isEmpty] at he
    rw [h1, h2]
  · rw [if_neg he]
    exact stripRightL_append_ws hw' _

theorem cleanL_fence {ws1 ws2 : List Char} (hw1 : ∀ c ∈ ws1, isPyWs c = true)
    (hw2 : ∀ c ∈ ws2, isPyWs c = true) (sd : List Char) (fence : List Char)
    (hf : fence = "```json".data ∨ fence = "```".data) :
    stripRightL (stripLeftL (replaceDelL "```".data (replaceDelL "```json".data
      (ws1 ++ (fence ++ ('\n' :: (sd ++ ('\n' :: ("```".data ++ ws2))))))))) =
    stripRightL (stripLeftL (replaceDelL "```".data (replaceDelL "```json".data sd))) := by
  have hnlpj : ('\n' : Char) ∉ "```json".data := by decide
  have hnlbt : ('\n' : Char) ∉ "```".data := by decide
  have hbt_ws1 : ('`' : Char) ∉ ws1 := fun hm => by
    have := hw1 '`' hm
    simp [isPyWs] at this
  have hj_missing : ∀ l : List Char, ('j' : Char) ∉ l →
      replaceDelL "```json".data l = l := fun l hl =>
    replaceDelL_no_occurs (occursList_eq_false_of_missing (by decide) hl)
  have hbt_missing : ∀ l : List Char, ('`' : Char) ∉ l →
      replaceDelL "```".data l = l := fun l hl =>
    replaceDelL_no_occurs (occursList_eq_false_of_missing (by decide) hl)
  have hj_ws : ('j' : Char) ∉ ws2 := fun hm => by
    have := hw2 'j' hm
    simp [isPyWs] at this
  have hbt_ws2 : ('`' : Char) ∉ ws2 := fun hm => by
    have := hw2 '`' hm
    simp [isPyWs] at this
  have hreshape : ws1 ++ (fence ++ ('\n' :: (sd ++ ('\n' :: ("```".data ++ ws2))))) =
      (ws1 ++ fence) ++ ('\n' :: (sd ++ ('\n' :: ("```".data ++ ws2)))) := by
    rw [List.append_assoc]
  rw [hreshape]
  rw [replaceDelL_split_nl hnlpj]
  rw [replaceDelL_split_nl hnlpj sd]
  have hlast1 : replaceDelL "```json".data ("```".data ++ ws2) = "```".data ++ ws2 := by
    apply hj_missing
    intro hm
    rcases List.mem_append.mp hm with h | h
    · exact absurd h (by decide)
    · exact hj_ws h
  rw [hlast1]
  have hstep1 : replaceDelL "```json".data (ws1 ++ fence) =
      ws1 ++ (if fence = "```json".data then [] else fence) := by
    rcases hf with hf | hf
    · subst hf
      rw [if_pos rfl]
      rw [replaceDelL_append_left (by decide : ("```json".data).head? = some '`') hbt_ws1]
      have h0 : replaceDelL "```json".data ("```json".data) = [] := by
        have h1 := replaceDelL_pat_append (by decide : "```json".data ≠ []) ([] : List Char)
        rw [List.append_nil] at h1
        rw [h1, replaceDelL_nil]
      rw [h0]
    · subst hf
      rw [if_neg (by decide)]
      apply hj_missing
      intro hm
      rcases List.mem_append.mp hm with h | h
      · have := hw1 'j' h
        simp [isPyWs] at this
      · exact absurd h (by decide)
  rw [hstep1]
  have hws1bt : ∀ l : List Char, replaceDelL "```".data (ws1 ++ l) =
      ws1 ++ replaceDelL "```".data l := fun l =>
    replaceDelL_append_left (by decide : ("```".data).head? = some '`') hbt_ws1 l
  have hlast2 : replaceDelL "```".data ("```".data ++ ws2) = ws2 := by
    rw [replaceDelL_pat_append (by decide : "```".data ≠ []) ws2]
    exact hbt_missing ws2 hbt_ws2
  have hws12 : ∀ c ∈ ws1 ++ ['\n'], isPyWs c = true := by
    intro c hc
    rcases List.mem_append.mp hc with h | h
    · exact hw1 c h
    · simp at h
      subst h
      decide
  have hws22 : ∀ c ∈ ('\n' :: ws2 : List Char), isPyWs c = true := by
    intro c hc
    rcases List.mem_cons.mp hc with h | h
    · subst h; decide
    · exact hw2 c h
  have hshape2 : ws1 ++ '\n' :: (replaceDelL "```".data (replaceDelL "```json".data sd) ++
      '\n' :: ws2) = (ws1 ++ ['\n']) ++
      ((replaceDelL "```".data (replaceDelL "```json".data sd)) ++ ('\n' :: ws2)) := by
    simp [List.append_assoc]
  rcases hf with hf | hf
  · subst hf
    rw [if_pos rfl, List.append_nil]
    rw [replaceDelL_split_nl hnlbt]
    rw [hbt_missing ws1 hbt_ws1]
    rw [replaceDelL_split_nl hnlbt]
    rw [hlast2]
    rw [hshape2]
    exact strip_both_ws hws12 hws22 _
  · subst hf
    rw [if_neg (by decide)]
    rw [replaceDelL_split_nl hnlbt]
    rw [hws1bt]
    have hbtbt : replaceDelL "```".data ("```".data : List Char) = [] := by
      have h1 := replaceDelL_pat_append (by decide : "```".data ≠ []) ([] : List Char)
      rw [List.append_nil] at h1
      rw [h1, replaceDelL_nil]
    rw [hbtbt, List.append_nil]
    rw [replaceDelL_split_nl hnlbt]
    rw [hlast2]
    rw [hshape2]
    exact strip_both_ws hws12 hws22 _

/-- Claim C5 (amended): for fences with the `json` tag or with no tag, a
response wrapped in markdown code fences (with optional surrounding
whitespace) cleans to the same text as the unwrapped response, so parsing
and validation give the same outcome — for every inner text `s`, valid JSON
or not. -/
theorem parseAndValidate_fenced (s ws1 ws2 : String)
    (h1 : ∀ c ∈ ws1.data, isPyWs c = true) (h2 : ∀ c ∈ ws2.data, isPyWs c = true) :
    parseAndValidate (ws1 ++ "```json\n" ++ s ++ "\n```" ++ ws2) = parseAndValidate s ∧
    parseAndValidate (ws1 ++ "```\n" ++ s ++ "\n```" ++ ws2) = parseAndValidate s := by
  have hclean : ∀ x : String, cleanResponse x =
      ⟨stripRightL (stripLeftL (replaceDelL "```".data
        (replaceDelL "```json".data x.data)))⟩ := fun x => rfl
  constructor
  · have hx : (ws1 ++ "```json\n" ++ s ++ "\n```" ++ ws2).data =
        ws1.data ++ ("```json".data ++ ('\n' :: (s.data ++
          ('\n' :: ("```".data ++ ws2.data))))) := by
      simp only [String.data_append]
      simp [List.append_assoc]
    have hcl : cleanResponse (ws1 ++ "```json\n" ++ s ++ "\n```" ++ ws2) =
        cleanResponse s := by
      rw [hclean, hclean, hx]
      exact congrArg String.mk (cleanL_fence h1 h2 s.data _ (.inl rfl))
    simp only [parseAndValidate, hcl]
  · have hx : (ws1 ++ "```\n" ++ s ++ "\n```" ++ ws2).data =
        ws1.data ++ ("```".data ++ ('\n' :: (s.data ++
          ('\n' :: ("```".data ++ ws2.data))))) := by
      simp only [String.data_append]
      simp [List.append_assoc]
    have hcl : cleanResponse (ws1 ++ "```\n" ++ s ++ "\n```" ++ ws2) =
        cleanResponse s := by
      rw [hclean, hclean, hx]
      exact congrArg String.mk (cleanL_fence h1 h2 s.data _ (.inr rfl))
    simp only [parseAndValidate, hcl]

/-- Witness for `parseAndValidate_fenced` at the spec's own example input:
`"  ```json\n{"strategy":"hold","speech":"","vote":null}\n```  "` parses to
the Decision (strategy "hold", speech "", vote null). -/
theorem parseAndValidate_fenced_witness :
    parseAndValidate "  ```json\n\x7b\"strategy\":\"hold\",\"speech\":\"\",\"vote\":null\x7d\n```  " =
      .ok ⟨"hold", "", none⟩ := by
  have h := (parseAndValidate_fenced "\x7b\"strategy\":\"hold\",\"speech\":\"\",\"vote\":null\x7d"
    "  " "  " (by decide) (by decide)).1
  have he : ("  " : String) ++ "```json\n" ++
      "\x7b\"strategy\":\"hold\",\"speech\":\"\",\"vote\":null\x7d" ++ "\n```" ++ "  " =
      "  ```json\n\x7b\"strategy\":\"hold\",\"speech\":\"\",\"vote\":null\x7d\n```  " := rfl
  rw [he] at h
  rw [h]
  rfl

/-- Claim C5 as stated is false on the code for language tags other than
`json`: the cleaner only deletes "```json" and "```", so a "```python" fence
leaves the tag word in the text and parsing fails, while the unwrapped
object parses fine. -/
theorem parseAndValidate_fence_tag_cex :
    parseAndValidate "```python\n\x7b\"strategy\":\"hold\",\"speech\":\"\",\"vote\":null\x7d\n```" =
      .error "Failed to parse model output as JSON" ∧
    parseAndValidate "\x7b\"strategy\":\"hold\",\"speech\":\"\",\"vote\":null\x7d" =
      .ok ⟨"hold", "", none⟩ := ⟨rfl, rfl⟩

theorem psb_nil : parseStringBody [] = none := rfl

theorem psb_quote (rest : List Char) : parseStringBody ('"' :: rest) = some ([], rest) := by
  rw [parseStringBody.eq_def]
  simp

theorem psb_bs1 : parseStringBody ['\\'] = none := by
  rw [parseStringBody.eq_def]
  simp

theorem psb_u_short0 : parseStringBody ['\\', 'u'] = none := by
  rw [parseStringBody.eq_def]
  simp

theorem psb_u_short1 (x1 : Char) : parseStringBody ['\\', 'u', x1] = none := by
  rw [parseStringBody.eq_def]
  simp

theorem psb_u_short2 (x1 x2 : Char) : parseStringBody ['\\', 'u', x1, x2] = none := by
  rw [parseStringBody.eq_def]
  simp

theorem psb_u_short3 (x1 x2 x3 : Char) : parseStringBody ['\\', 'u', x1, x2, x3] = none := by
  rw [parseStringBody.eq_def]
  simp

theorem psb_bs_unfold (e : Char) (rest2 : List Char) (hu : ¬ e = 'u') :
    parseStringBody ('\\' :: e :: rest2) =
      (match escChar e with
        | some c2 =>
          (match parseStringBody rest2 with
          | some (cs, r) => some (c2 :: cs, r)
          | none => none)
        | none => none) := by
  rw [parseStringBody.eq_def]
  simp [hu]

theorem psb_u_unfold (x1 x2 x3 x4 : Char) (rest3 : List Char) :
    parseStringBody ('\\' :: 'u' :: x1 :: x2 :: x3 :: x4 :: rest3) =
      (match hexVal x1, hexVal x2, hexVal x3, hexVal x4 with
          | some a, some b, some c', some d =>
            if ((a * 16 + b) * 16 + c') * 16 + d < 0xd800 ∨
                0xe000 ≤ ((a * 16 + b) * 16 + c') * 16 + d then
              match parseStringBody rest3 with
              | some (cs, r) => some (Char.ofNat (((a * 16 + b) * 16 + c') * 16 + d) :: cs, r)
              | none => none
            else none
          | _, _, _, _ => none) := by
  rw [parseStringBody.eq_def]
  simp

theorem psb_plain_unfold (c : Char) (rest : List Char) (h1 : ¬ c = '"') (h2 : ¬ c = '\\') :
    parseStringBody (c :: rest) =
      (if c.toNat < 0x20 then none
       else match parseStringBody rest with
            | some (cs, r) => some (c :: cs, r)
            | none => none) := by
  conv_lhs => rw [parseStringBody.eq_def]
  simp only [if_neg h1, if_neg h2]

theorem psb_split :
    ∀ (n : Nat) (l cs r : List Char), l.length ≤ n → parseStringBody l = some (cs, r) →
      ∃ b, l = b ++ r ∧ b ≠ [] ∧ b.getLast? = some '"' ∧
        (∀ ext, parseStringBody (b ++ ext) = some (cs, ext)) := by
  intro n
  induction n with
  | zero =>
    intro l cs r hlen h
    have hl : l = [] := List.eq_nil_of_length_eq_zero (Nat.le_zero.mp hlen)
    subst hl
    rw [psb_nil] at h
    cases h
  | succ n ih =>
    intro l cs r hlen h
    cases l with
    | nil =>
      rw [psb_nil] at h
      cases h
    | cons c rest =>
      simp only [List.length_cons] at hlen
      by_cases hq : c = '"'
      · subst hq
        rw [psb_quote] at h
        simp only [Option.some.injEq, Prod.mk.injEq] at h
        obtain ⟨h1, h2⟩ := h
        subst h1
        subst h2
        refine ⟨['"'], rfl, by simp, by simp, ?_⟩
        intro ext
        exact psb_quote ext
      · by_cases hb : c = '\\'
        · subst hb
          cases rest with
          | nil =>
            rw [psb_bs1] at h
            cases h
          | cons e rest2 =>
            simp only [List.length_cons] at hlen
            by_cases hu : e = 'u'
            · subst hu
              rcases rest2 with _ | ⟨x1, _ | ⟨x2, _ | ⟨x3, _ | ⟨x4, rest3⟩⟩⟩⟩
              · rw [psb_u_short0] at h
                cases h
              · rw [psb_u_short1] at h
                cases h
              · rw [psb_u_short2] at h
                cases h
              · rw [psb_u_short3] at h
                cases h
              · rw [psb_u_unfold] at h
                cases hh1 : hexVal x1 with
                | none => rw [hh1] at h; simp at h
                | some a =>
                cases hh2 : hexVal x2 with
                | none => rw [hh1, hh2] at h; simp at h
                | some b2 =>
                cases hh3 : hexVal x3 with
                | none => rw [hh1, hh2, hh3] at h; simp at h
                | some c3 =>
                cases hh4 : hexVal x4 with
                | none => rw [hh1, hh2, hh3, hh4] at h; simp at h
                | some d4 =>
                rw [hh1, hh2, hh3, hh4] at h
                by_cases hv : ((a * 16 + b2) * 16 + c3) * 16 + d4 < 0xd800 ∨
                    0xe000 ≤ ((a * 16 + b2) * 16 + c3) * 16 + d4
                · cases hrec : parseStringBody rest3 with
                  | none => simp [hv, hrec] at h
                  | some pr =>
                    obtain ⟨cs', r'⟩ := pr
                    simp only [hrec] at h
                    simp [hv] at h
                    obtain ⟨h1, h2⟩ := h
                    subst h1
                    subst h2
                    obtain ⟨b', hb1, hb2, hb3, hb4⟩ := ih rest3 cs' r'
                      (by simp only [List.length_cons] at hlen; omega) hrec
                    refine ⟨'\\' :: 'u' :: x1 :: x2 :: x3 :: x4 :: b', ?_, by simp, ?_, ?_⟩
                    · simp [hb1]
                    · show (('\\' :: 'u' :: x1 :: x2 :: x3 :: [x4]) ++ b').getLast? = some '"'
                      rw [List.getLast?_append, hb3]
                      rfl
                    · intro ext
                      have hext := hb4 ext
                      simp only [List.cons_append]
                      rw [psb_u_unfold, hh1, hh2, hh3, hh4, hext]
                      simp [hv]
                · simp [hv] at h
            · cases hesc : escChar e with
              | none =>
                rw [psb_bs_unfold e rest2 hu, hesc] at h
                cases h
              | some c2 =>
                cases hrec : parseStringBody rest2 with
                | none =>
                  rw [psb_bs_unfold e rest2 hu, hesc, hrec] at h
                  cases h
                | some pr =>
                  obtain ⟨cs', r'⟩ := pr
                  rw [psb_bs_unfold e rest2 hu, hesc, hrec] at h
                  simp only [Option.some.injEq, Prod.mk.injEq] at h
                  obtain ⟨h1, h2⟩ := h
                  subst h1
                  subst h2
                  obtain ⟨b', hb1, hb2, hb3, hb4⟩ := ih rest2 cs' r' (by omega) hrec
                  refine ⟨'\\' :: e :: b', ?_, by simp, ?_, ?_⟩
                  · simp [hb1]
                  · show (('\\' :: [e]) ++ b').getLast? = some '"'
                    rw [List.getLast?_append, hb3]
                    rfl
                  · intro ext
                    have hext := hb4 ext
                    simp only [List.cons_append]
                    rw [psb_bs_unfold e (b' ++ ext) hu, hesc, hext]
        · by_cases hctl : c.toNat < 0x20
          · rw [psb_plain_unfold c rest hq hb, if_pos hctl] at h
            cases h
          · cases hrec : parseStringBody rest with
            | none =>
              rw [psb_plain_unfold c rest hq hb, if_neg hctl, hrec] at h
              cases h
            | some pr =>
              obtain ⟨cs', r'⟩ := pr
              rw [psb_plain_unfold c rest hq hb, if_neg hctl, hrec] at h
              simp only [Option.some.injEq, Prod.mk.injEq] at h
              obtain ⟨h1, h2⟩ := h
              subst h1
              subst h2
              obtain ⟨b', hb1, hb2, hb3, hb4⟩ := ih rest cs' r' (by omega) hrec
              refine ⟨c :: b', ?_, by simp, ?_, ?_⟩
              · simp [hb1]
              · show (([c] : List Char) ++ b').getLast? = some '"'
                rw [List.getLast?_append, hb3]
                rfl
              · intro ext
                have hext := hb4 ext
                simp only [List.cons_append]
                rw [psb_plain_unfold c (b' ++ ext) hq hb, if_neg hctl, hext]

theorem pvF_zero (l : List Char) : parseValueF 0 l = none := rfl

theorem pvF_succ_unfold (f : Nat) (l : List Char) :
    parseValueF (f + 1) l =
      (if "null".data.isPrefixOf l then some (Json.null, l.drop 4)
      else match l with
      | [] => none
      | c :: rest =>
        if c = '"' then
          match parseStringBody rest with
          | some (cs, r) => some (Json.str ⟨cs⟩, r)
          | none => none
        else if c = '\x7b' then
          match skipWs rest with
          | [] => none
          | c2 :: r2 =>
            if c2 = '\x7d' then some (Json.obj [], r2)
            else
              match parseMembersF f [] (c2 :: r2) with
              | some (fs, r) => some (Json.obj fs, r)
              | none => none
        else none) := by
  rw [parseValueF.eq_def]

theorem pmF_zero (acc : List (String × Json)) (l : List Char) :
    parseMembersF 0 acc l = none := rfl

theorem pmF_succ_unfold (f : Nat) (acc : List (String × Json)) (l : List Char) :
    parseMembersF (f + 1) acc l =
      (match l with
      | [] => none
      | c :: rest =>
        if c = '"' then
          match parseStringBody rest with
          | none => none
          | some (kcs, r1) =>
            match skipWs r1 with
            | [] => none
            | c2 :: r2 =>
              if c2 = ':' then
                match parseValueF f (skipWs r2) with
                | none => none
                | some (v, r3) =>
                  (match skipWs r3 with
                  | [] => none
                  | c3 :: r4 =>
                    if c3 = ',' then parseMembersF f (upsert acc ⟨kcs⟩ v) (skipWs r4)
                    else if c3 = '\x7d' then some (upsert acc ⟨kcs⟩ v, r4)
                    else none)
              else none
        else none) := by
  rw [parseMembersF.eq_def]

theorem skipWs_all_append {w : List Char} (hw : ∀ ch ∈ w, isJsonWs ch = true)
    (x : List Char) : skipWs (w ++ x) = skipWs x := dropWhile_append_all hw x

theorem skipWs_cons_neg {ch : Char} (h : isJsonWs ch = false) (x : List Char) :
    skipWs (ch :: x) = ch :: x := by
  unfold skipWs
  rw [List.dropWhile_cons, h]
  rfl

theorem skipWs_decomp (x : List Char) : x = x.takeWhile isJsonWs ++ skipWs x :=
  (List.takeWhile_append_dropWhile isJsonWs x).symm

theorem takeWhile_ws_all (x : List Char) :
    ∀ ch ∈ x.takeWhile isJsonWs, isJsonWs ch = true := fun _ hc =>
  List.mem_takeWhile_imp hc

theorem getLast?_append_some {l₂ : List Char} {z : Char} (h : l₂.getLast? = some z)
    (l₁ : List Char) : (l₁ ++ l₂).getLast? = some z := by
  rw [List.getLast?_append, h]
  rfl

theorem value_head_shape {cv : List Char}
    (h : cv.head? = some 'n' ∨ cv.head? = some '"' ∨ cv.head? = some '\x7b') :
    ∃ hd t, cv = hd :: t ∧ isJsonWs hd = false := by
  rcases h with h | h | h <;>
    (cases cv with
     | nil => simp at h
     | cons a t =>
       simp only [List.head?_cons, Option.some.injEq] at h
       subst h
       exact ⟨_, t, rfl, by decide⟩)

theorem skipWs_head_nonws {cv : List Char} {hd : Char} {t : List Char}
    (hcv : cv = hd :: t) (hws : isJsonWs hd = false) (x : List Char) :
    skipWs (cv ++ x) = cv ++ x := by
  subst hcv
  rw [List.cons_append]
  exact skipWs_cons_neg hws _

theorem nullPrefix_quote (x : List Char) :
    ("null".data.isPrefixOf ('"' :: x)) = false := rfl

theorem nullPrefix_brace (x : List Char) :
    ("null".data.isPrefixOf ('\x7b' :: x)) = false := rfl

theorem pmF_step_comma (f : Nat) (acc : List (String × Json)) (rest kcs r1 r2 : List Char)
    (v : Json) (r3 r4 : List Char)
    (h1 : parseStringBody rest = some (kcs, r1)) (h2 : skipWs r1 = ':' :: r2)
    (h3 : parseValueF f (skipWs r2) = some (v, r3)) (h4 : skipWs r3 = ',' :: r4) :
    parseMembersF (f + 1) acc ('"' :: rest) =
      parseMembersF f (upsert acc ⟨kcs⟩ v) (skipWs r4) := by
  rw [pmF_succ_unfold]
  simp [h1, h2, h3, h4]

theorem pmF_step_close (f : Nat) (acc : List (String × Json)) (rest kcs r1 r2 : List Char)
    (v : Json) (r3 r4 : List Char)
    (h1 : parseStringBody rest = some (kcs, r1)) (h2 : skipWs r1 = ':' :: r2)
    (h3 : parseValueF f (skipWs r2) = some (v, r3)) (h4 : skipWs r3 = '\x7d' :: r4) :
    parseMembersF (f + 1) acc ('"' :: rest) = some (upsert acc ⟨kcs⟩ v, r4) := by
  rw [pmF_succ_unfold]
  simp [h1, h2, h3, h4]

theorem parse_split : ∀ f : Nat,
    (∀ l v r, parseValueF f l = some (v, r) →
      ∃ c, l = c ++ r ∧ c ≠ [] ∧
        (c.head? = some 'n' ∨ c.head? = some '"' ∨ c.head? = some '\x7b') ∧
        (c.getLast? = some 'l' ∨ c.getLast? = some '"' ∨ c.getLast? = some '\x7d') ∧
        (∀ f' ext, c.length < f' → parseValueF f' (c ++ ext) = some (v, ext))) ∧
    (∀ acc l fs r, parseMembersF f acc l = some (fs, r) →
      ∃ c, l = c ++ r ∧ c ≠ [] ∧ c.head? = some '"' ∧ c.getLast? = some '\x7d' ∧
        (∀ f' ext, c.length < f' → parseMembersF f' acc (c ++ ext) = some (fs, ext))) := by
  intro f
  induction f with
  | zero =>
    constructor
    · intro l v r h
      rw [pvF_zero] at h
      cases h
    · intro acc l fs r h
      rw [pmF_zero] at h
      cases h
  | succ f ih =>
    obtain ⟨ihv, ihm⟩ := ih
    constructor
    · intro l v r h
      rw [pvF_succ_unfold] at h
      by_cases hn : "null".data.isPrefixOf l = true
      · rw [if_pos hn] at h
        simp only [Option.some.injEq, Prod.mk.injEq] at h
        obtain ⟨hv1, hv2⟩ := h
        obtain ⟨t, ht⟩ := prefixOf_ex hn
        subst ht
        have hdrop : ("null".data ++ t).drop 4 = t := rfl
        refine ⟨"null".data, ?_, by decide, by decide, by decide, ?_⟩
        · rw [← hv2, hdrop]
        · intro f' ext hlt
          cases f' with
          | zero => omega
          | succ g =>
            rw [pvF_succ_unfold]
            rw [if_pos (prefixOf_append_self "null".data ext)]
            rw [← hv1]
            have : ("null".data ++ ext).drop 4 = ext := rfl
            rw [this]
      · rw [if_neg hn] at h
        cases l with
        | nil => cases h
        | cons c1 rest =>
          by_cases h1 : c1 = '"'
          · subst h1
            cases hps : parseStringBody rest with
            | none => simp [hps] at h
            | some pr =>
              obtain ⟨cs, r1⟩ := pr
              simp [hps] at h
              obtain ⟨hv1, hv2⟩ := h
              obtain ⟨b, hb1, hb2, hb3, hb4⟩ := psb_split rest.length rest cs r1 le_rfl hps
              refine ⟨'"' :: b, ?_, by simp, .inr (.inl rfl), .inr (.inl ?_), ?_⟩
              · rw [← hv2, hb1]
                simp
              · show ((['"'] : List Char) ++ b).getLast? = some '"'
                exact getLast?_append_some hb3 _
              · intro f' ext hlt
                cases f' with
                | zero => omega
                | succ g =>
                  rw [List.cons_append, pvF_succ_unfold]
                  rw [if_neg (by rw [nullPrefix_quote]; exact Bool.false_ne_true)]
                  simp [hb4 ext, ← hv1]
          · by_cases h2 : c1 = '\x7b'
            · subst h2
              cases hsk : skipWs rest with
              | nil => simp [h1, hsk] at h
              | cons c2 r2 =>
                by_cases h3 : c2 = '\x7d'
                · subst h3
                  simp [h1, hsk] at h
                  obtain ⟨hv1, hv2⟩ := h
                  subst hv1
                  subst hv2
                  refine ⟨'\x7b' :: (rest.takeWhile isJsonWs ++ ['\x7d']), ?_, by simp,
                    by simp, .inr (.inr ?_), ?_⟩
                  · have hd := skipWs_decomp rest
                    rw [hsk] at hd
                    conv_lhs => rw [hd]
                    simp
                  · show (('\x7b' :: rest.takeWhile isJsonWs) ++ ['\x7d']).getLast? = some '\x7d'
                    exact @getLast?_append_some ['\x7d'] '\x7d' rfl _
                  · intro f' ext hlt
                    cases f' with
                    | zero => omega
                    | succ g =>
                      rw [List.cons_append, pvF_succ_unfold]
                      rw [if_neg (by rw [nullPrefix_brace]; exact Bool.false_ne_true)]
                      have hskip : skipWs (rest.takeWhile isJsonWs ++ '\x7d' :: ext) =
                          '\x7d' :: ext := by
                        rw [skipWs_all_append (takeWhile_ws_all rest)]
                        exact skipWs_cons_neg (by decide) ext
                      simp [hskip]
                · cases hpm : parseMembersF f [] (c2 :: r2) with
                  | none => simp [h1, hsk, h3, hpm] at h
                  | some pm =>
                    obtain ⟨fs, r'⟩ := pm
                    simp [h1, hsk, h3, hpm] at h
                    obtain ⟨hv1, hv2⟩ := h
                    rw [← hv1, ← hv2]
                    obtain ⟨cm, hcm1, hcm2, hcm3, hcm4, hcm5⟩ := ihm [] (c2 :: r2) fs r' hpm
                    obtain ⟨cmt, hcmt⟩ : ∃ t, cm = '"' :: t := by
                      cases cm with
                      | nil => simp at hcm3
                      | cons a t =>
                        simp only [List.head?_cons, Option.some.injEq] at hcm3
                        subst hcm3
                        exact ⟨t, rfl⟩
                    refine ⟨'\x7b' :: (rest.takeWhile isJsonWs ++ cm), ?_, by simp, by simp,
                      .inr (.inr ?_), ?_⟩
                    · have hd := skipWs_decomp rest
                      rw [hsk] at hd
                      rw [hcm1] at hd
                      conv_lhs => rw [hd]
                      simp
                    · show (('\x7b' :: rest.takeWhile isJsonWs) ++ cm).getLast? = some '\x7d'
                      exact getLast?_append_some hcm4 _
                    · intro f' ext hlt
                      cases f' with
                      | zero => omega
                      | succ g =>
                        rw [List.cons_append, pvF_succ_unfold]
                        rw [if_neg (by rw [nullPrefix_brace]; exact Bool.false_ne_true)]
                        have hlen : cm.length < g := by
                          have := hlt
                          simp only [List.length_cons, List.length_append] at this
                          omega
                        have hext := hcm5 g ext hlen
                        rw [hcmt] at hext
                        rw [List.cons_append] at hext
                        rw [hcmt]
                        have hskip : skipWs (rest.takeWhile isJsonWs ++
                            '"' :: (cmt ++ ext)) = '"' :: (cmt ++ ext) := by
                          rw [skipWs_all_append (takeWhile_ws_all rest)]
                          exact skipWs_cons_neg (by decide) _
                        simp [hskip, hext]
            · simp [h1, h2] at h
    · intro acc l fs r h
      rw [pmF_succ_unfold] at h
      cases l with
      | nil => cases h
      | cons c1 rest =>
        by_cases h1 : c1 = '"'
        · subst h1
          cases hps : parseStringBody rest with
          | none => simp [hps] at h
          | some pk =>
            obtain ⟨kcs, r1⟩ := pk
            cases hsk1 : skipWs r1 with
            | nil => simp [hps, hsk1] at h
            | cons c2 r2 =>
              by_cases h2 : c2 = ':'
              · subst h2
                cases hpv : parseValueF f (skipWs r2) with
                | none => simp [hps, hsk1, hpv] at h
                | some pv =>
                  obtain ⟨v, r3⟩ := pv
                  cases hsk3 : skipWs r3 with
                  | nil => simp [hps, hsk1, hpv, hsk3] at h
                  | cons c3 r4 =>
                    obtain ⟨bk, hbk1, hbk2, hbk3, hbk4⟩ :=
                      psb_split rest.length rest kcs r1 le_rfl hps
                    obtain ⟨cv, hcv1, hcv2, hcv3, hcv4, hcv5⟩ := ihv (skipWs r2) v r3 hpv
                    obtain ⟨vhd, vtl, hvh, hvws⟩ := value_head_shape hcv3
                    by_cases h3 : c3 = ','
                    · subst h3
                      simp [hps, hsk1, hpv, hsk3] at h
                      obtain ⟨cm, hcm1, hcm2, hcm3, hcm4, hcm5⟩ :=
                        ihm (upsert acc ⟨kcs⟩ v) (skipWs r4) fs r h
                      obtain ⟨cmt, hcmt⟩ : ∃ t, cm = '"' :: t := by
                        cases cm with
                        | nil => simp at hcm3
                        | cons a t =>
                          simp only [List.head?_cons, Option.some.injEq] at hcm3
                          subst hcm3
                          exact ⟨t, rfl⟩
                      refine ⟨'"' :: (bk ++ (r1.takeWhile isJsonWs ++ (':' ::
                        (r2.takeWhile isJsonWs ++ (cv ++ (r3.takeWhile isJsonWs ++ (',' ::
                        (r4.takeWhile isJsonWs ++ cm)))))))), ?_, by simp, by simp, ?_, ?_⟩
                      · have e1 := skipWs_decomp r1
                        rw [hsk1] at e1
                        have e2 := skipWs_decomp r2
                        rw [hcv1] at e2
                        have e3 := skipWs_decomp r3
                        rw [hsk3] at e3
                        have e4 := skipWs_decomp r4
                        rw [hcm1] at e4
                        conv_lhs => rw [hbk1, e1, e2, e3, e4]
                        simp
                      · rw [show ('"' :: (bk ++ (r1.takeWhile isJsonWs ++ (':' ::
                          (r2.takeWhile isJsonWs ++ (cv ++ (r3.takeWhile isJsonWs ++ (',' ::
                          (r4.takeWhile isJsonWs ++ cm)))))))) : List Char) = ('"' :: (bk ++
                          (r1.takeWhile isJsonWs ++ (':' :: (r2.takeWhile isJsonWs ++
                          (cv ++ (r3.takeWhile isJsonWs ++ ([','] ++
                          r4.takeWhile isJsonWs)))))))) ++ cm from by simp]
                        exact getLast?_append_some hcm4 _
                      · intro f' ext hlt
                        cases f' with
                        | zero => omega
                        | succ g =>
                          rw [List.cons_append]
                          have hh1 : parseStringBody ((bk ++ (r1.takeWhile isJsonWs ++ (':' ::
                              (r2.takeWhile isJsonWs ++ (cv ++ (r3.takeWhile isJsonWs ++ (',' ::
                              (r4.takeWhile isJsonWs ++ cm)))))))) ++ ext) = some (kcs,
                              (r1.takeWhile isJsonWs ++ (':' :: (r2.takeWhile isJsonWs ++
                              (cv ++ (r3.takeWhile isJsonWs ++ (',' ::
                              (r4.takeWhile isJsonWs ++ cm))))))) ++ ext) := by
                            rw [List.append_assoc]
                            exact hbk4 _
                          have hh2 : skipWs ((r1.takeWhile isJsonWs ++ (':' ::
                              (r2.takeWhile isJsonWs ++ (cv ++ (r3.takeWhile isJsonWs ++ (',' ::
                              (r4.takeWhile isJsonWs ++ cm))))))) ++ ext) = ':' ::
                              ((r2.takeWhile isJsonWs ++ (cv ++ (r3.takeWhile isJsonWs ++ (',' ::
                              (r4.takeWhile isJsonWs ++ cm))))) ++ ext) := by
                            rw [List.append_assoc]
                            rw [skipWs_all_append (takeWhile_ws_all r1)]
                            rw [List.cons_append]
                            exact skipWs_cons_neg (by decide) _
                          have hh3v : skipWs ((r2.takeWhile isJsonWs ++ (cv ++
                              (r3.takeWhile isJsonWs ++ (',' :: (r4.takeWhile isJsonWs ++
                              cm))))) ++ ext) = cv ++ ((r3.takeWhile isJsonWs ++ (',' ::
                              (r4.takeWhile isJsonWs ++ cm))) ++ ext) := by
                            rw [List.append_assoc]
                            rw [skipWs_all_append (takeWhile_ws_all r2)]
                            rw [List.append_assoc]
                            exact skipWs_head_nonws hvh hvws _
                          have hh3 : parseValueF g (skipWs ((r2.takeWhile isJsonWs ++ (cv ++
                              (r3.takeWhile isJsonWs ++ (',' :: (r4.takeWhile isJsonWs ++
                              cm))))) ++ ext)) = some (v, (r3.takeWhile isJsonWs ++ (',' ::
                              (r4.takeWhile isJsonWs ++ cm))) ++ ext) := by
                            rw [hh3v]
                            apply hcv5
                            simp only [List.length_cons, List.length_append] at hlt
                            omega
                          have hh4 : skipWs ((r3.takeWhile isJsonWs ++ (',' ::
                              (r4.takeWhile isJsonWs ++ cm))) ++ ext) = ',' ::
                              ((r4.takeWhile isJsonWs ++ cm) ++ ext) := by
                            rw [List.append_assoc]
                            rw [skipWs_all_append (takeWhile_ws_all r3)]
                            rw [List.cons_append]
                            exact skipWs_cons_neg (by decide) _
                          rw [pmF_step_comma g acc _ kcs _ _ v _ _ hh1 hh2 hh3 hh4]
                          have hh5 : skipWs ((r4.takeWhile isJsonWs ++ cm) ++ ext) =
                              cm ++ ext := by
                            rw [List.append_assoc]
                            rw [skipWs_all_append (takeWhile_ws_all r4)]
                            exact skipWs_head_nonws hcmt (by decide) ext
                          rw [hh5]
                          apply hcm5
                          simp only [List.length_cons, List.length_append] at hlt
                          omega
                    · by_cases h4 : c3 = '\x7d'
                      · subst h4
                        simp [hps, hsk1, hpv, hsk3, h3] at h
                        obtain ⟨hm1, hm2⟩ := h
                        rw [← hm1, ← hm2]
                        refine ⟨'"' :: (bk ++ (r1.takeWhile isJsonWs ++ (':' ::
                          (r2.takeWhile isJsonWs ++ (cv ++ (r3.takeWhile isJsonWs ++
                          ['\x7d'])))))), ?_, by simp, by simp, ?_, ?_⟩
                        · have e1 := skipWs_decomp r1
                          rw [hsk1] at e1
                          have e2 := skipWs_decomp r2
                          rw [hcv1] at e2
                          have e3 := skipWs_decomp r3
                          rw [hsk3] at e3
                          conv_lhs => rw [hbk1, e1, e2, e3]
                          simp
                        · rw [show ('"' :: (bk ++ (r1.takeWhile isJsonWs ++ (':' ::
                            (r2.takeWhile isJsonWs ++ (cv ++ (r3.takeWhile isJsonWs ++
                            ['\x7d'])))))) : List Char) = ('"' :: (bk ++
                            (r1.takeWhile isJsonWs ++ (':' :: (r2.takeWhile isJsonWs ++
                            (cv ++ r3.takeWhile isJsonWs)))))) ++ ['\x7d'] from by simp]
                          exact @getLast?_append_some ['\x7d'] '\x7d' rfl _
                        · intro f' ext hlt
                          cases f' with
                          | zero => omega
                          | succ g =>
                            rw [List.cons_append]
                            have hh1 : parseStringBody ((bk ++ (r1.takeWhile isJsonWs ++
                                (':' :: (r2.takeWhile isJsonWs ++ (cv ++
                                (r3.takeWhile isJsonWs ++ ['\x7d'])))))) ++ ext) = some (kcs,
                                (r1.takeWhile isJsonWs ++ (':' :: (r2.takeWhile isJsonWs ++
                                (cv ++ (r3.takeWhile isJsonWs ++ ['\x7d']))))) ++ ext) := by
                              rw [List.append_assoc]
                              exact hbk4 _
                            have hh2 : skipWs ((r1.takeWhile isJsonWs ++ (':' ::
                                (r2.takeWhile isJsonWs ++ (cv ++ (r3.takeWhile isJsonWs ++
                                ['\x7d']))))) ++ ext) = ':' :: ((r2.takeWhile isJsonWs ++
                                (cv ++ (r3.takeWhile isJsonWs ++ ['\x7d']))) ++ ext) := by
                              rw [List.append_assoc]
                              rw [skipWs_all_append (takeWhile_ws_all r1)]
                              rw [List.cons_append]
                              exact skipWs_cons_neg (by decide) _
                            have hh3v : skipWs ((r2.takeWhile isJsonWs ++ (cv ++
                                (r3.takeWhile isJsonWs ++ ['\x7d']))) ++ ext) = cv ++
                                ((r3.takeWhile isJsonWs ++ ['\x7d']) ++ ext) := by
                              rw [List.append_assoc]
                              rw [skipWs_all_append (takeWhile_ws_all r2)]
                              rw [List.append_assoc]
                              exact skipWs_head_nonws hvh hvws _
                            have hh3 : parseValueF g (skipWs ((r2.takeWhile isJsonWs ++
                                (cv ++ (r3.takeWhile isJsonWs ++ ['\x7d']))) ++ ext)) =
                                some (v, (r3.takeWhile isJsonWs ++ ['\x7d']) ++ ext) := by
                              rw [hh3v]
                              apply hcv5
                              simp only [List.length_cons, List.length_append] at hlt
                              omega
                            have hh4 : skipWs ((r3.takeWhile isJsonWs ++ ['\x7d']) ++ ext) =
                                '\x7d' :: ext := by
                              rw [List.append_assoc]
                              rw [skipWs_all_append (takeWhile_ws_all r3)]
                              exact skipWs_cons_neg (by decide) _
                            rw [pmF_step_close g acc _ kcs _ _ v _ _ hh1 hh2 hh3 hh4]
                      · simp [hps, hsk1, hpv, hsk3, h3, h4] at h
              · simp [hps, hsk1, h2] at h
        · simp [h1] at h

theorem pyWs_of_jsonWs {ch : Char} (h : isJsonWs ch = true) : isPyWs ch = true := by
  simp only [isJsonWs, Bool.or_eq_true, decide_eq_true_eq] at h
  simp only [isPyWs, Bool.or_eq_true, decide_eq_true_eq]
  tauto

theorem stripLeftL_cons_neg {ch : Char} (h : isPyWs ch = false) (x : List Char) :
    stripLeftL (ch :: x) = ch :: x := by
  unfold stripLeftL
  rw [List.dropWhile_cons, h]
  rfl

theorem stripRightL_noop {c : List Char} {z : Char} (hz : c.getLast? = some z)
    (hzw : isPyWs z = false) : stripRightL c = c := by
  induction c using List.reverseRecOn with
  | nil => simp at hz
  | append_singleton as a ih =>
    rw [List.getLast?_concat] at hz
    have ha : a = z := by injection hz
    subst ha
    unfold stripRightL
    rw [List.reverse_append, List.reverse_singleton, List.singleton_append]
    rw [List.dropWhile_cons, hzw]
    simp

theorem pyStrip_extract (s : String) (c rest : List Char)
    (hs : s.data = s.data.takeWhile isJsonWs ++ (c ++ rest))
    (hd : Char) (t : List Char) (hc : c = hd :: t) (hw : isPyWs hd = false)
    (z : Char) (hz : c.getLast? = some z) (hzw : isPyWs z = false)
    (hrest : ∀ ch ∈ rest, isPyWs ch = true) :
    pyStrip s = ⟨c⟩ := by
  subst hc
  unfold pyStrip
  conv_lhs => rw [hs]
  rw [stripLeftL_ws_append (fun ch hch => pyWs_of_jsonWs (List.mem_takeWhile_imp hch)) _]
  rw [List.cons_append]
  rw [stripLeftL_cons_neg hw]
  rw [← List.cons_append]
  rw [stripRightL_append_ws hrest]
  rw [stripRightL_noop hz hzw]

/-- Stripping surrounding Python whitespace from a text that already parses as
JSON does not change the parse result. -/
theorem jsonParse_strip (s : String) (j : Json) (h : jsonParse s = some j) :
    jsonParse (pyStrip s) = some j := by
  simp only [jsonParse] at h
  cases hpv : parseValueF (s.length + 1) (skipWs s.data) with
  | none => rw [hpv] at h; cases h
  | some p =>
    obtain ⟨v, rest⟩ := p
    rw [hpv] at h
    by_cases hrest : rest.all isJsonWs
    · simp only [hrest, if_true] at h
      simp at h
      obtain ⟨c, hc1, hc2, hc3, hc4, hc5⟩ := (parse_split (s.length + 1)).1 _ v rest hpv
      obtain ⟨hd, t, hct, hwj⟩ := value_head_shape hc3
      have hwp : isPyWs hd = false := by
        rcases hc3 with h3 | h3 | h3 <;>
          (rw [hct] at h3
           simp only [List.head?_cons, Option.some.injEq] at h3
           subst h3
           decide)
      obtain ⟨z, hz, hzw⟩ : ∃ z, c.getLast? = some z ∧ isPyWs z = false := by
        rcases hc4 with h4 | h4 | h4 <;> exact ⟨_, h4, by decide⟩
      have hsdata : s.data = s.data.takeWhile isJsonWs ++ (c ++ rest) := by
        conv_lhs => rw [skipWs_decomp s.data, hc1]
      have hrestp : ∀ ch ∈ rest, isPyWs ch = true := fun ch hch =>
        pyWs_of_jsonWs (by
          rw [List.all_eq_true] at hrest
          exact hrest ch hch)
      rw [pyStrip_extract s c rest hsdata hd t hct hwp z hz hzw hrestp]
      simp only [jsonParse]
      have hskipc : skipWs (String.data ⟨c⟩) = c := by
        show skipWs c = c
        rw [hct]
        exact skipWs_cons_neg hwj _
      rw [hskipc]
      have hfin : parseValueF (String.length ⟨c⟩ + 1) c = some (v, []) := by
        have hx := hc5 (c.length + 1) [] (Nat.lt_succ_self _)
        rw [List.append_nil] at hx
        exact hx
      rw [hfin]
      simp [h]
    · simp [hrest] at h

/-- If the response text contains no backtick, the fence cleanup of
`_parse_and_validate` reduces to a plain `strip()`. -/
theorem cleanResponse_no_backtick {s : String} (h : '\x60' ∉ s.data) :
    cleanResponse s = pyStrip s := by
  show pyStrip ⟨replaceDelL "```".data (replaceDelL "```json".data s.data)⟩ = pyStrip s
  rw [replaceDelL_no_occurs (occursList_eq_false_of_missing (by decide) h)]
  rw [replaceDelL_no_occurs (occursList_eq_false_of_missing (by decide) h)]

theorem perm_pair {p q y z : String × Json} (hne : p ≠ q) (h : [y, z].Perm [p, q]) :
    (y = p ∧ z = q) ∨ (y = q ∧ z = p) := by
  have hy : y = p ∨ y = q := by simpa using h.subset (List.mem_cons_self y [z])
  rcases hy with hy | hy
  · left
    refine ⟨hy, ?_⟩
    rw [hy] at h
    simpa using List.perm_singleton.mp h.cons_inv
  · right
    refine ⟨hy, ?_⟩
    rw [hy] at h
    have hz : z = p ∨ z = q := by
      simpa using h.subset (List.mem_cons_of_mem _ (List.mem_cons_self z []))
    rcases hz with hz | hz
    · exact hz
    · rw [hz] at h
      have hp : p = q ∨ p = q := by simpa using h.symm.subset (List.mem_cons_self p [q])
      rcases hp with hp | hp <;> exact absurd hp hne

/-- Looking up the three Decision keys in any permutation of the three-field
association list recovers the three values. -/
theorem lookup_three {fields : List (String × Json)} {v₁ v₂ v₃ : Json}
    (h : fields.Perm [("strategy", v₁), ("speech", v₂), ("vote", v₃)]) :
    jlookup "strategy" fields = some v₁ ∧ jlookup "speech" fields = some v₂ ∧
      jlookup "vote" fields = some v₃ ∧ fields.length = 3 := by
  have hlen : fields.length = 3 := by rw [h.length_eq]; rfl
  obtain ⟨x, y, z, hxyz⟩ : ∃ x y z, fields = [x, y, z] := by
    cases fields with
    | nil => cases hlen
    | cons a l1 =>
      cases l1 with
      | nil => cases hlen
      | cons b l2 =>
        cases l2 with
        | nil => cases hlen
        | cons c l3 =>
          cases l3 with
          | nil => exact ⟨a, b, c, rfl⟩
          | cons d l4 => cases hlen
  subst hxyz
  have hx : x = ("strategy", v₁) ∨ x = ("speech", v₂) ∨ x = ("vote", v₃) := by
    simpa using h.subset (List.mem_cons_self x [y, z])
  rcases hx with hx | hx | hx
  · subst hx
    rcases perm_pair (by simp) h.cons_inv with ⟨hy, hz⟩ | ⟨hy, hz⟩ <;>
      subst hy <;> subst hz <;>
      exact ⟨by simp [jlookup], by simp [jlookup], by simp [jlookup], rfl⟩
  · subst hx
    have h2 : [y, z].Perm [("strategy", v₁), ("vote", v₃)] :=
      (h.trans (List.Perm.swap _ _ _)).cons_inv
    rcases perm_pair (by simp) h2 with ⟨hy, hz⟩ | ⟨hy, hz⟩ <;>
      subst hy <;> subst hz <;>
      exact ⟨by simp [jlookup], by simp [jlookup], by simp [jlookup], rfl⟩
  · subst hx
    have h2 : [y, z].Perm [("strategy", v₁), ("speech", v₂)] :=
      (h.trans ((List.Perm.cons _ (List.Perm.swap _ _ _)).trans
        (List.Perm.swap _ _ _))).cons_inv
    rcases perm_pair (by simp) h2 with ⟨hy, hz⟩ | ⟨hy, hz⟩ <;>
      subst hy <;> subst hz <;>
      exact ⟨by simp [jlookup], by simp [jlookup], by simp [jlookup], rfl⟩

/-- Claim C4 (amended): for every backtick-free response text that is exactly
a JSON object with the three fields strategy (string), speech (string) and
vote (string or null) — in any field order — `_parse_and_validate` succeeds
and the resulting Decision's three field values equal the field values of the
input JSON unchanged. -/
theorem parseAndValidate_roundtrip (text : String) (fields : List (String × Json))
    (st sp : String) (vote : Option String)
    (hnb : '\x60' ∉ text.data)
    (hp : jsonParse text = some (.obj fields))
    (hf : fields.Perm [("strategy", Json.str st), ("speech", Json.str sp),
      ("vote", voteJson vote)]) :
    parseAndValidate text = .ok ⟨st, sp, vote⟩ := by
  obtain ⟨h1, h2, h3, hlen⟩ := lookup_three hf
  have hclean := cleanResponse_no_backtick hnb
  have hstrip := jsonParse_strip text _ hp
  simp only [parseAndValidate, hclean, hstrip]
  simp only [validateTurnOutput, h1, h2, h3, hlen]
  cases vote with
  | none => simp [voteJson]
  | some t => simp [voteJson]

/-- Witness for C4: a concrete three-field object with reordered fields and
surrounding whitespace round-trips to the Decision unchanged. -/
theorem parseAndValidate_roundtrip_witness :
    '\x60' ∉ ("\n \x7b\"strategy\": \"plan\", \"vote\": \"Bob\", \"speech\": \"hi\"\x7d  " : String).data ∧
    parseAndValidate "\n \x7b\"strategy\": \"plan\", \"vote\": \"Bob\", \"speech\": \"hi\"\x7d  " =
      .ok ⟨"plan", "hi", some "Bob"⟩ :=
  ⟨by decide, parseAndValidate_roundtrip _
    [("strategy", .str "plan"), ("vote", .str "Bob"), ("speech", .str "hi")]
    "plan" "hi" (some "Bob") (by decide) rfl
    (List.Perm.cons _ (List.Perm.swap _ _ _))⟩

/-- Counterexample to C4 as frozen: a response that is exactly a three-field
JSON object whose strategy value contains backticks parses as JSON to that
value, yet `_parse_and_validate` returns a Decision whose strategy has the
backticks deleted — the field values do not round-trip unchanged, because
`.replace` strips backticks inside string values too. -/
theorem parseAndValidate_backtick_cex :
    jsonParse "\x7b\"strategy\": \"a\x60\x60\x60b\", \"speech\": \"hi\", \"vote\": null\x7d" =
      some (.obj [("strategy", .str "a\x60\x60\x60b"), ("speech", .str "hi"),
        ("vote", .null)]) ∧
    parseAndValidate "\x7b\"strategy\": \"a\x60\x60\x60b\", \"speech\": \"hi\", \"vote\": null\x7d" =
      .ok ⟨"ab", "hi", none⟩ ∧
    ("a\x60\x60\x60b" : String) ≠ "ab" :=
  ⟨rfl, rfl, by decide⟩

/-- Claim C1 (amended): a successful `take_turn` overwrites the stored
strategy exactly when the returned Decision's strategy is non-empty — an
empty returned strategy leaves the stored strategy unchanged — and a
`take_turn` in which the Dispatcher raises leaves the player untouched. -/
theorem takeTurn_strategy_update (p : Player) (gs : GameState) (tn : Nat) (d : Dispatcher) :
    (∀ out, d (logName p) p.state.provider p.state.model_name (buildSystemPrompt p gs)
        (buildTurnPrompt p gs) tn = .ok out →
      (takeTurn p gs tn d).1.state.strategy =
        (if out.strategy = "" then p.state.strategy else out.strategy)) ∧
    (∀ e, d (logName p) p.state.provider p.state.model_name (buildSystemPrompt p gs)
        (buildTurnPrompt p gs) tn = .error e →
      (takeTurn p gs tn d).1 = p) := by
  constructor
  · intro out h
    simp only [takeTurn, h]
    by_cases hs : out.strategy = "" <;> simp [hs]
  · intro e h
    simp only [takeTurn, h]

/-- Claim C1 as stated is false on the code: here the Dispatcher succeeds and
returns a Decision whose strategy field is the empty string, yet the stored
strategy remains "old plan" instead of being overwritten with `""`
(models.py line 151 guards the overwrite with `if output.strategy:`). -/
theorem takeTurn_empty_strategy_cex :
    (takeTurn samplePlayer sampleGS 2 (dOk ⟨"", "quiet", none⟩)).1.state.strategy = "old plan" ∧
    (takeTurn samplePlayer sampleGS 2 (dOk ⟨"", "quiet", none⟩)).1.state.strategy ≠ "" := by
  exact ⟨rfl, by decide⟩

/-- Witness for `takeTurn_strategy_update` at a concrete input: a non-empty
returned strategy does overwrite. -/
theorem takeTurn_strategy_update_witness :
    (takeTurn samplePlayer sampleGS 2 (dOk ⟨"new plan", "s", none⟩)).1.state.strategy =
      "new plan" := by
  have h := (takeTurn_strategy_update samplePlayer sampleGS 2 (dOk ⟨"new plan", "s", none⟩)).1
    ⟨"new plan", "s", none⟩ rfl
  exact h.trans (if_neg (by decide))

/-- Claim C2: `reflect_on_game` never raises — on any Dispatcher failure it
returns the pre-existing memory unchanged, and on success it returns the
Decision's strategy field stripped of surrounding whitespace.  (In the
embedding the operation is a total function into `String`; the `try` block
of models.py lines 198-237 spans the entire Dispatcher interaction.) -/
theorem reflectOnGame_total (p : Player) (gs : GameState) (winner : String) (d : Dispatcher) :
    (∀ e, d (logName p) p.state.provider p.state.model_name (reflectSystemPrompt p winner)
        (reflectTurnPrompt p gs) 999 = .error e →
      reflectOnGame p gs winner d = p.memory) ∧
    (∀ out, d (logName p) p.state.provider p.state.model_name (reflectSystemPrompt p winner)
        (reflectTurnPrompt p gs) 999 = .ok out →
      reflectOnGame p gs winner d = pyStrip out.strategy) := by
  constructor
  · intro e h
    simp only [reflectOnGame, h]
  · intro out h
    simp only [reflectOnGame, h]

/-- Witness for `reflectOnGame_total` at a concrete input: a forced
Dispatcher failure yields the old memory. -/
theorem reflectOnGame_total_witness :
    reflectOnGame samplePlayer sampleGS "Villagers" dErr = samplePlayer.memory :=
  (reflectOnGame_total samplePlayer sampleGS "Villagers" dErr).1 "boom" rfl

/-- Claim C10: whatever the Dispatcher does, `take_turn` changes no component
of the agent's state other than (possibly) the strategy field. -/
theorem takeTurn_frame (p : Player) (gs : GameState) (tn : Nat) (d : Dispatcher) :
    (takeTurn p gs tn d).1.state.name = p.state.name ∧
    (takeTurn p gs tn d).1.state.role = p.state.role ∧
    (takeTurn p gs tn d).1.state.provider = p.state.provider ∧
    (takeTurn p gs tn d).1.state.model_name = p.state.model_name ∧
    (takeTurn p gs tn d).1.state.use_cli = p.state.use_cli ∧
    (takeTurn p gs tn d).1.state.is_alive = p.state.is_alive ∧
    (takeTurn p gs tn d).1.memory = p.memory ∧
    (takeTurn p gs tn d).1.partner_name = p.partner_name ∧
    (takeTurn p gs tn d).1.player_index = p.player_index ∧
    (takeTurn p gs tn d).1.memory_enabled = p.memory_enabled := by
  simp only [takeTurn]
  cases d (logName p) p.state.provider p.state.model_name (buildSystemPrompt p gs)
      (buildTurnPrompt p gs) tn with
  | error e => simp
  | ok out => by_cases hs : out.strategy = "" <;> simp [hs]

/-- Claim C6: in local-tool mode (the hardcoded mode of the module), a
provider outside the four mapped keys makes `generate_turn` raise the
configuration error, and no external process is spawned. -/
theorem generateTurn_unmapped_provider (debug : Bool) (cli : CliWorld)
    (pn prov mn sp tp : String) (tn : Nat)
    (h1 : prov ≠ "openai") (h2 : prov ≠ "anthropic") (h3 : prov ≠ "google")
    (h4 : prov ≠ "groq") :
    (generateTurn debug cli pn prov mn sp tp tn).result =
      .error (.configError ("No CLI tool mapped for provider " ++ prov)) ∧
    (generateTurn debug cli pn prov mn sp tp tn).spawned = [] := by
  have hc : cliCmdOf prov = none := by simp [cliCmdOf, h1, h2, h3, h4]
  constructor <;> simp only [generateTurn, hc]

/-- Witness for `generateTurn_unmapped_provider`: the hosted-only provider
"xai" has no CLI mapping. -/
theorem generateTurn_unmapped_provider_witness :
    (generateTurn true cliDown "0_Alice" "xai" "grok" "sys" "turn" 1).result =
      .error (.configError ("No CLI tool mapped for provider " ++ "xai")) ∧
    (generateTurn true cliDown "0_Alice" "xai" "grok" "sys" "turn" 1).spawned = [] :=
  generateTurn_unmapped_provider true cliDown "0_Alice" "xai" "grok" "sys" "turn" 1
    (by decide) (by decide) (by decide) (by decide)

/-- Claim C3 (amended): on a client whose debug flag is set (its default),
every `generate_turn` call — configuration failure, process failure,
validation failure or success — appends to the audit log a record built from
the full prompt, the turn number, and either the backend's response text or
an error text, before the outcome is propagated. -/
theorem generateTurn_audit (cli : CliWorld) (pn prov mn sp tp : String) (tn : Nat) :
    ∃ x,
      auditRecord tn (sp ++ "\n\n" ++ tp ++ "\n\nIMPORTANT: Return ONLY JSON object.") x ∈
        (generateTurn true cli pn prov mn sp tp tn).audit ∧
      ((∃ m, x = "ERROR: " ++ m) ∨
       (∃ cmd, cliCmdOf prov = some cmd ∧
        cli (buildCliCmd cmd mn
          (sp ++ "\n\n" ++ tp ++ "\n\nIMPORTANT: Return ONLY JSON object.")) = .ok x)) := by
  cases hc : cliCmdOf prov with
  | none =>
    exact ⟨"ERROR: " ++ ("No CLI tool mapped for provider " ++ prov),
      by simp [generateTurn, hc], .inl ⟨_, rfl⟩⟩
  | some cmd =>
    cases hcli : cli (buildCliCmd cmd mn
        (sp ++ "\n\n" ++ tp ++ "\n\nIMPORTANT: Return ONLY JSON object.")) with
    | error st =>
      exact ⟨"ERROR: " ++ cliErrMsg (buildCliCmd cmd mn
          (sp ++ "\n\n" ++ tp ++ "\n\nIMPORTANT: Return ONLY JSON object.")),
        by simp [generateTurn, hc, hcli], .inl ⟨_, rfl⟩⟩
    | ok so =>
      cases hpv : parseAndValidate so with
      | error msg =>
        exact ⟨so, by simp [generateTurn, hc, hcli, hpv], .inr ⟨cmd, rfl, hcli⟩⟩
      | ok t =>
        exact ⟨so, by simp [generateTurn, hc, hcli, hpv], .inr ⟨cmd, rfl, hcli⟩⟩

set_option maxRecDepth 8000 in
/-- Claim C3 as stated is false on the code: on a client constructed with
`debug=False`, `_log_debug` returns without writing, so this successful call
appends no record at all. -/
theorem generateTurn_audit_cex :
    (generateTurn false (fun _ => .ok "\x7b\"strategy\":\"a\",\"speech\":\"b\",\"vote\":null\x7d")
        "0_Alice" "openai" "gpt" "sys" "turn" 3).audit = [] ∧
    (generateTurn false (fun _ => .ok "\x7b\"strategy\":\"a\",\"speech\":\"b\",\"vote\":null\x7d")
        "0_Alice" "openai" "gpt" "sys" "turn" 3).result = .ok ⟨"a", "b", none⟩ := by
  constructor
  · rfl
  · rfl

/-- Claim C7 (amended): the reflection turn prompt contains, contiguously and
in log order, the rendering `[phase] actor: content` of every public log
entry except those with phase "Reflection" and a non-"System" actor, and of
every Mafia-log entry. -/
theorem reflectTurnPrompt_logs (p : Player) (gs : GameState) :
    occursIn (String.join ((gs.public_logs.filter keepReflectLog).map renderLog))
      (reflectTurnPrompt p gs) = true ∧
    occursIn (String.join (gs.mafia_logs.map renderLog))
      (reflectTurnPrompt p gs) = true := by
  constructor
  · simp only [reflectTurnPrompt]
    exact occursIn_sandwich _ _ _
  · simp only [reflectTurnPrompt]
    apply occursIn_prepend
    apply occursIn_prepend
    exact occursIn_sandwich _ _ _

set_option maxRecDepth 8000 in
/-- Claim C7 as stated is false on the code: this public-log entry has phase
"Reflection" and actor "Alice", so `reflect_on_game` skips it
(models.py lines 176-177) and its rendering never reaches the prompt. -/
theorem reflectTurnPrompt_cex :
    occursIn (renderLog ⟨"Reflection", "Alice", "I learned"⟩)
      (reflectTurnPrompt samplePlayer reflGS) = false := by decide

/-- Claim C8: for a Day-phase game state with turn counter 1 and any role,
the turn prompt ends with the Day-1 instruction block, whose only vote
instruction is `vote=null` (no non-null vote choice is offered), and the
system prompt's output template describes the vote field as null. -/
theorem dayOnePrompts (p : Player) (gs : GameState) (h1 : gs.phase = "Day")
    (h2 : gs.turn = 1) :
    (∃ pre, buildTurnPrompt p gs =
      pre ++ "DAY 1. Speak once, make it count.\nNo voting today. vote=null.\n") ∧
    (∃ pre2, buildSystemPrompt p gs = pre2 ++ "\"vote\": \"null\"\x7d\n") := by
  constructor
  · simp only [buildTurnPrompt, h1, h2,
      if_neg (show ¬(("Day" : String) = "Voting") from by decide),
      if_neg (show ¬(("Day" : String) = "Defense") from by decide),
      if_neg (show ¬(("Day" : String) = "Night") from by decide),
      if_pos (show (1 : Nat) = 1 from rfl)]
    apply exists_append_left
    apply exists_append_left
    apply exists_append_left
    apply exists_append_left
    apply exists_append_left
    exact ⟨"", rfl⟩
  · simp only [buildSystemPrompt, h1, h2,
      if_pos (show ("Day" : String) = "Day" from rfl),
      if_pos (show (1 : Nat) = 1 from rfl)]
    apply exists_append_left
    apply exists_append_left
    apply exists_append_left
    apply exists_append_left
    apply exists_append_left
    exact ⟨"", rfl⟩

/-- Witness for `dayOnePrompts` at a concrete input. -/
theorem dayOnePrompts_witness :
    (∃ pre, buildTurnPrompt samplePlayer sampleGS =
      pre ++ "DAY 1. Speak once, make it count.\nNo voting today. vote=null.\n") ∧
    (∃ pre2, buildSystemPrompt samplePlayer sampleGS = pre2 ++ "\"vote\": \"null\"\x7d\n") :=
  dayOnePrompts samplePlayer sampleGS rfl rfl

/-- Claim C9: for a Mafia agent the system prompt carries exactly one
partner-status line, in the slot between the header and the faction goal:
the alive line when a partner reference is set and that player is listed
alive in the context roster, the dead line when a partner reference is set
and the player is not listed alive, and the last-Mafia line exactly when no
(non-empty) partner reference is set. -/
theorem mafiaPartnerLine (p : Player) (gs : GameState) (h : p.state.role = "Mafia") :
    ∃ tail, buildSystemPrompt p gs =
      ("MAFIA GAME. You: " ++ p.state.name ++ " (" ++ p.state.role ++
        "). 8 players: 2 Mafia, 6 Villagers.\n") ++
      (((match p.partner_name with
        | none => "You're the last Mafia.\n"
        | some nm =>
          if nm = "" then "You're the last Mafia.\n"
          else if rosterAlive gs nm then "Partner: " ++ nm ++ " (alive).\n"
          else "Partner: " ++ nm ++ " (dead).\n") ++
       "GOAL: Deceive town, eliminate until you outnumber them.\n") ++ tail) := by
  cases hpn : p.partner_name with
  | none =>
    simp only [buildSystemPrompt, partnerAliveIn, optTruthy, h, hpn]
    norm_num
    exact ⟨_, rfl⟩
  | some nm =>
    by_cases hnm : nm = ""
    · subst hnm
      simp only [buildSystemPrompt, partnerAliveIn, optTruthy, h, hpn]
      norm_num
      exact ⟨_, rfl⟩
    · cases hal : rosterAlive gs nm with
      | true =>
        simp only [buildSystemPrompt, partnerAliveIn, optTruthy, h, hpn, hal]
        norm_num [hnm]
        exact ⟨_, rfl⟩
      | false =>
        simp only [buildSystemPrompt, partnerAliveIn, optTruthy, h, hpn, hal]
        norm_num [hnm]
        exact ⟨_, rfl⟩

/-- Witness for `mafiaPartnerLine` at a concrete input (partner "Bob" is
listed dead in `sampleGS`, so the dead line is chosen). -/
theorem mafiaPartnerLine_witness :
    ∃ tail, buildSystemPrompt samplePlayer sampleGS =
      ("MAFIA GAME. You: " ++ samplePlayer.state.name ++ " (" ++ samplePlayer.state.role ++
        "). 8 players: 2 Mafia, 6 Villagers.\n") ++
      ((match samplePlayer.partner_name with
        | none => "You're the last Mafia.\n"
        | some nm =>
          if nm = "" then "You're the last Mafia.\n"
          else if rosterAlive sampleGS nm then "Partner: " ++ nm ++ " (alive).\n"
          else "Partner: " ++ nm ++ " (dead).\n") ++
       ("GOAL: Deceive town, eliminate until you outnumber them.\n" ++ tail)) :=
  mafiaPartnerLine samplePlayer sampleGS rfl

end Mafia
